import Mathlib

/-!
Verification of the URL container and RFC 3986 grammar engine
(boost.url, CPPAlliance/url revision).

The development shallowly embeds the data model of
`include/boost/url/detail/parts.hpp` and the grammar/container
behaviour documented in `include/boost/url/url.hpp` and the rfc
headers.  Strings are modelled as `List Char`; machine sizes are
`Nat`.  Where an implementation file (.ipp) is absent from the
source tree, the definition is modelled from the specification and
this is recorded in its doc comment.
-/

namespace BoostUrl

/-- Byte strings of the container, as lists of characters. -/
abbrev Str := List Char

/-! ## Character classes (spec section 4.1, detail/char_type.hpp interface) -/

/-- ALPHA: upper or lower case letter. -/
def isAlphaC (c : Char) : Bool :=
  (65 ≤ c.toNat && c.toNat ≤ 90) || (97 ≤ c.toNat && c.toNat ≤ 122)

/-- DIGIT. -/
def isDigitC (c : Char) : Bool :=
  48 ≤ c.toNat && c.toNat ≤ 57

/-- HEXDIG: digit or letter A-F in either case. -/
def isHexDigC (c : Char) : Bool :=
  isDigitC c || (65 ≤ c.toNat && c.toNat ≤ 70) || (97 ≤ c.toNat && c.toNat ≤ 102)

/-- unreserved = ALPHA / DIGIT / "-" / "." / "_" / "~". -/
def isUnreserved (c : Char) : Bool :=
  isAlphaC c || isDigitC c || c = '-' || c = '.' || c = '_' || c = '~'

/-- sub-delims = "!" "$" "&" APOSTROPHE "(" ")" "*" "+" "," ";" "=",
given here by code point. -/
def isSubDelim (c : Char) : Bool :=
  [33, 36, 38, 39, 40, 41, 42, 43, 44, 59, 61].contains c.toNat

/-- Characters allowed after the first byte of a scheme. -/
def isSchemeChar (c : Char) : Bool :=
  isAlphaC c || isDigitC c || c = '+' || c = '-' || c = '.'

/-- user = *( unreserved / pct-encoded / sub-delims ): the plain characters. -/
def isUserChar (c : Char) : Bool :=
  isUnreserved c || isSubDelim c

/-- password = *( unreserved / pct-encoded / sub-delims / ":" ): plain characters. -/
def isPassChar (c : Char) : Bool :=
  isUnreserved c || isSubDelim c || c = ':'

/-- reg-name = *( unreserved / pct-encoded / sub-delims ): plain characters. -/
def isRegNameChar (c : Char) : Bool :=
  isUnreserved c || isSubDelim c

/-- pchar without the pct-encoded alternative. -/
def isPcharNoPct (c : Char) : Bool :=
  isUnreserved c || isSubDelim c || c = ':' || c = '@'

/-- Characters of a path component: pchar plus the segment separator. -/
def isPathChar (c : Char) : Bool :=
  isPcharNoPct c || c = '/'

/-- Characters of query and fragment: pchar / "/" / "?". -/
def isQFChar (c : Char) : Bool :=
  isPcharNoPct c || c = '/' || c = '?'

/-- Characters of segment-nz-nc: pchar without ":". -/
def isNCChar (c : Char) : Bool :=
  isUnreserved c || isSubDelim c || c = '@'

/-- Characters that can occur between the brackets of an IP-literal:
the IPv6address alphabet (HEXDIG, ":", ".") together with the IPvFuture
alphabet (v, HEXDIG, ".", unreserved, sub-delims, ":").  Every string
matching "[" ( IPv6address / IPvFuture ) "]" has its inner bytes in
this set. -/
def isIPLiteralChar (c : Char) : Bool :=
  isHexDigC c || c = ':' || c = '.' || isUnreserved c || isSubDelim c || c = 'v'

/-! ## Percent-encoding validation (spec section 4.1)

A component string is well formed for a plain-character class when every
byte is either in the class or part of a "%" HEXDIG HEXDIG triplet. -/

/-- Validity of an encoded component string against a plain-character
class: each character is allowed, or begins a valid percent triplet. -/
def pctOK (A : Char → Bool) : Str → Bool
  | [] => true
  | c :: rest =>
    if c = '%' then
      match rest with
      | a :: b :: rest2 => isHexDigC a && isHexDigC b && pctOK A rest2
      | _ => false
    else A c && pctOK A rest

theorem pctOK_nil (A : Char → Bool) : pctOK A [] = true := rfl

theorem pctOK_cons_of_ne (A : Char → Bool) {c : Char} (h : c ≠ '%') (l : Str) :
    pctOK A (c :: l) = (A c && pctOK A l) := by
  rw [pctOK.eq_def]
  simp [h]

theorem pctOK_pct (A : Char → Bool) (a b : Char) (l : Str) :
    pctOK A ('%' :: a :: b :: l) = (isHexDigC a && isHexDigC b && pctOK A l) := rfl

/-- Every character of a pct-valid string is an allowed plain character,
a hex digit, or the percent sign itself. -/
theorem pctOK_all (A : Char → Bool) :
    ∀ (n : Nat) (l : Str), l.length ≤ n → pctOK A l = true →
      ∀ c ∈ l, A c = true ∨ isHexDigC c = true ∨ c = '%' := by
  intro n
  induction n with
  | zero =>
    intro l hl _ c hc
    have : l = [] := List.eq_nil_of_length_eq_zero (Nat.le_zero.mp hl)
    subst this
    simp at hc
  | succ n ih =>
    intro l hl h c hc
    match l with
    | [] => simp at hc
    | x :: rest =>
      by_cases hx : x = '%'
      · subst hx
        match rest with
        | [] => simp [pctOK] at h
        | [a] => simp [pctOK] at h
        | a :: b :: r2 =>
          rw [pctOK_pct] at h
          simp only [Bool.and_eq_true] at h
          obtain ⟨⟨ha, hb⟩, hr⟩ := h
          simp only [List.mem_cons] at hc
          rcases hc with rfl | rfl | rfl | hc
          · exact Or.inr (Or.inr rfl)
          · exact Or.inr (Or.inl ha)
          · exact Or.inr (Or.inl hb)
          · have hlen : r2.length ≤ n := by
              simp only [List.length_cons] at hl
              omega
            exact ih r2 hlen hr c hc
      · rw [pctOK_cons_of_ne A hx] at h
        simp only [Bool.and_eq_true] at h
        simp only [List.mem_cons] at hc
        rcases hc with rfl | hc
        · exact Or.inl h.1
        · have hlen : rest.length ≤ n := by
            simp only [List.length_cons] at hl
            omega
          exact ih rest hlen h.2 c hc

/-- A character outside the class, not a hex digit and not the percent
sign, cannot occur in a pct-valid string. -/
theorem pctOK_not_mem {A : Char → Bool} {l : Str} (h : pctOK A l = true)
    {c : Char} (h1 : A c = false) (h2 : isHexDigC c = false) (h3 : c ≠ '%') :
    c ∉ l := by
  intro hc
  rcases pctOK_all A l.length l (Nat.le_refl _) h c hc with h' | h' | h'
  · rw [h1] at h'; exact Bool.false_ne_true h'
  · rw [h2] at h'; exact Bool.false_ne_true h'
  · exact h3 h'

/-- A character failing a list-wide boolean predicate is not a member. -/
theorem all_not_mem {p : Char → Bool} {l : Str} (h : l.all p = true)
    {c : Char} (hc : p c = false) : c ∉ l := by
  intro hmem
  have := List.all_eq_true.mp h c hmem
  rw [hc] at this
  exact Bool.false_ne_true this

/-! ## The indexed-string container (spec section 3, url.hpp, detail/parts.hpp)

The container owns one serialized byte string indexed by the nine part
ids of detail/parts.hpp (id_scheme .. id_frag, id_end).  We model the
state by the eight stored component strings; each component string
carries its structural delimiters exactly as laid out in the table of
spec section 3 (scheme has a trailing ":", user a leading "//", pass a
leading ":" and trailing "@", port a leading ":", query a leading "?",
fragment a leading "#").  The offset array is recovered as the sequence
of cumulative lengths (definitions partsOffset and friends below). -/

structure UrlState where
  scheme_part : Str
  user_part : Str
  pass_part : Str
  host_part : Str
  port_part : Str
  path_part : Str
  query_part : Str
  frag_part : Str
deriving DecidableEq, Repr

/-- Serialization: the stored bytes of the components in order, which is
the whole owned buffer (url::encoded_url, parts::get(id_scheme, id_end)). -/
def serializeUrl (st : UrlState) : Str :=
  st.scheme_part ++ st.user_part ++ st.pass_part ++ st.host_part ++
    st.port_part ++ st.path_part ++ st.query_part ++ st.frag_part

/-! ### Stored-byte well-formedness of each component -/

/-- Stored scheme bytes: empty, or a valid scheme followed by ":"
(scheme = ALPHA *( ALPHA / DIGIT / "+" / "-" / "." )). -/
def schemePartOK : Str → Bool
  | [] => true
  | c :: rest =>
    isAlphaC c && rest.dropLast.all isSchemeChar && (c :: rest).getLast? = some ':' &&
      rest ≠ []

/-- Stored user bytes: empty (no authority), or "//" followed by the
user, whose bytes satisfy the user class with percent triplets. -/
def userPartOK (l : Str) : Bool :=
  l.isEmpty || (l.take 2 = ['/', '/'] && pctOK isUserChar (l.drop 2))

/-- Stored password bytes: empty (no userinfo or the "@" belongs to no
password and no user), a bare "@" (userinfo present, password absent),
or ":" password "@" (password present, possibly empty). -/
def passPartOK (l : Str) : Bool :=
  l = [] || l = ['@'] ||
    (l.head? = some ':' && l.getLast? = some '@' &&
      pctOK isPassChar ((l.drop 1).dropLast))

/-- Stored host bytes: a bracketed IP-literal whose inner bytes lie in
the IP-literal alphabet, or a reg-name with percent triplets.  (The
concrete IPv6address / IPvFuture match is re-validated by the host
matcher; for the indexing invariants only the alphabet matters, and the
alphabet stated here is exactly the closure of those two productions.) -/
def hostPartOK (l : Str) : Bool :=
  if l.head? = some '[' then
    l.getLast? = some ']' && ((l.drop 1).dropLast.all isIPLiteralChar)
  else pctOK isRegNameChar l

/-- Stored port bytes: empty, or ":" followed by digits (port = *DIGIT). -/
def portPartOK (l : Str) : Bool :=
  l = [] || (l.head? = some ':' && (l.drop 1).all isDigitC)

/-- Stored path bytes for a given context: the path style accepted
depends on whether an authority and a scheme are present
(url.hpp set_encoded_path documentation, spec section 4.3 Path). -/
def pathOK (hasScheme hasAuth : Bool) (p : Str) : Bool :=
  pctOK isPathChar p &&
    (if hasAuth then
      -- path-abempty: empty or beginning with "/"
      p.isEmpty || p.head? = some '/'
    else if p.isEmpty then
      -- path-empty
      true
    else if p.head? = some '/' then
      -- path-absolute: "/" not followed by another "/"
      (p.drop 1).head? ≠ some '/'
    else if hasScheme then
      -- path-rootless: begins with a non-empty segment
      true
    else
      -- path-noscheme: the first segment is non-empty and has no ":"
      pctOK isNCChar (p.takeWhile (fun c => c ≠ '/')))

/-- Stored query bytes: empty, or "?" followed by query characters. -/
def queryPartOK (l : Str) : Bool :=
  l = [] || (l.head? = some '?' && pctOK isQFChar (l.drop 1))

/-- Stored fragment bytes: empty, or "#" followed by fragment characters. -/
def fragPartOK (l : Str) : Bool :=
  l = [] || (l.head? = some '#' && pctOK isQFChar (l.drop 1))

/-- Authority block coherence: either no authority (user bytes empty and
then pass, host, port are empty as well, spec section 3 invariant 6), or
the user bytes begin with "//" and each authority component is well
formed; a non-empty user forces an "@", hence non-empty pass bytes
(stored-byte layout table of spec section 3). -/
def authOK (us pa ho po : Str) : Bool :=
  if us.isEmpty then pa.isEmpty && ho.isEmpty && po.isEmpty
  else
    userPartOK us && passPartOK pa && hostPartOK ho && portPartOK po &&
      (!pa.isEmpty || (us.drop 2).isEmpty)

/-- The data-model invariant of spec section 3 on the stored bytes:
every component is well formed for its grammar and context, so that the
concatenation is a syntactically valid URI-reference whose decomposition
is recoverable from the bytes alone. -/
def validState (st : UrlState) : Bool :=
  schemePartOK st.scheme_part &&
    authOK st.user_part st.pass_part st.host_part st.port_part &&
    pathOK (!st.scheme_part.isEmpty) (!st.user_part.isEmpty) st.path_part &&
    queryPartOK st.query_part &&
    fragPartOK st.frag_part

/-! ## The URI-reference parser

Modelled from the spec: the parsing constructor url(string_view), url::
set_encoded_url and the uri / relative-ref matchers are implemented in
.ipp files absent from the tree; the splitting below follows spec
section 4.3 (URI-reference dispatch, Authority single scan, Host
dispatch on the first byte) and section 6 grammar, and the accepted
language is the validState invariant on the recovered decomposition. -/

/-- Split at the first occurrence of a delimiter: the second half begins
with the delimiter if it occurs at all. -/
def splitFirst (c : Char) (l : Str) : Str × Str :=
  (l.takeWhile (fun a => a ≠ c), l.dropWhile (fun a => a ≠ c))

/-- Scheme detection: the longest prefix of scheme characters, accepted
as the scheme when non-empty, starting with ALPHA and followed by ":". -/
def takeSchemePart (l : Str) : Str × Str :=
  let run := l.takeWhile isSchemeChar
  let rest := l.dropWhile isSchemeChar
  match run.head? with
  | none => ([], l)
  | some c =>
    if isAlphaC c ∧ rest.head? = some ':' then
      (run ++ [':'], rest.drop 1)
    else ([], l)

/-- Host and port from the bytes after any userinfo: a "[" starts an
IP-literal running to the first "]"; otherwise the host runs to the
first ":" and the remainder is the port with its leading colon. -/
def parseHostPort (hp : Str) : Str × Str :=
  if hp.head? = some '[' then
    let inner := (hp.drop 1).takeWhile (fun a => a ≠ ']')
    let after := (hp.drop 1).dropWhile (fun a => a ≠ ']')
    if after.isEmpty then (hp, [])
    else ('[' :: (inner ++ [']']), after.drop 1)
  else (hp.takeWhile (fun a => a ≠ ':'), hp.dropWhile (fun a => a ≠ ':'))

/-- Authority decomposition of the span between "//" and the path: the
span before the first "@", if any, is the userinfo, split at its first
":" into user and password. -/
def parseAuthority (au : Str) : Str × Str × Str × Str :=
  let ui := au.takeWhile (fun a => a ≠ '@')
  let withAt := au.dropWhile (fun a => a ≠ '@')
  if withAt.isEmpty then
    let hopo := parseHostPort au
    (['/', '/'], [], hopo.1, hopo.2)
  else
    let u := ui.takeWhile (fun a => a ≠ ':')
    let colonPass := ui.dropWhile (fun a => a ≠ ':')
    let hopo := parseHostPort (withAt.drop 1)
    ('/' :: '/' :: u, colonPass ++ ['@'], hopo.1, hopo.2)

/-- After the scheme: "//" introduces an authority running to the first
"/", and the rest is the path; otherwise everything is the path. -/
def parseAfterScheme (r : Str) : Str × Str × Str × Str × Str :=
  if r.take 2 = ['/', '/'] then
    let rest := r.drop 2
    let au := rest.takeWhile (fun a => a ≠ '/')
    let pathP := rest.dropWhile (fun a => a ≠ '/')
    let a4 := parseAuthority au
    (a4.1, a4.2.1, a4.2.2.1, a4.2.2.2, pathP)
  else ([], [], [], [], r)

/-- Decompose a URI-reference: strip fragment, then query, then scheme,
then authority and path. -/
def splitUrl (s : Str) : UrlState :=
  let bf := (splitFirst '#' s).1
  let fragP := (splitFirst '#' s).2
  let bq := (splitFirst '?' bf).1
  let queryP := (splitFirst '?' bf).2
  let sr := takeSchemePart bq
  let rest5 := parseAfterScheme sr.2
  ⟨sr.1, rest5.1, rest5.2.1, rest5.2.2.1, rest5.2.2.2.1, rest5.2.2.2.2,
    queryP, fragP⟩

/-- Parse a URI-reference: accept when the recovered decomposition
satisfies the data-model invariant. -/
def parseUrl (s : Str) : Option UrlState :=
  if validState (splitUrl s) then some (splitUrl s) else none

/-! ### Splitting lemmas -/

theorem takeWhile_append_all {p : Char → Bool} {A : Str} (h : ∀ a ∈ A, p a = true)
    (B : Str) : (A ++ B).takeWhile p = A ++ B.takeWhile p := by
  induction A with
  | nil => simp
  | cons a A ih =>
    have ha : p a = true := h a (List.mem_cons_self a A)
    simp only [List.cons_append, List.takeWhile_cons, ha, if_true]
    rw [ih (fun x hx => h x (List.mem_cons_of_mem a hx))]

theorem dropWhile_append_all {p : Char → Bool} {A : Str} (h : ∀ a ∈ A, p a = true)
    (B : Str) : (A ++ B).dropWhile p = B.dropWhile p := by
  induction A with
  | nil => simp
  | cons a A ih =>
    have ha : p a = true := h a (List.mem_cons_self a A)
    simp only [List.cons_append, List.dropWhile_cons, ha, if_true]
    exact ih (fun x hx => h x (List.mem_cons_of_mem a hx))

theorem takeWhile_all {p : Char → Bool} {A : Str} (h : ∀ a ∈ A, p a = true) :
    A.takeWhile p = A := by
  have := takeWhile_append_all h []
  simpa using this

theorem dropWhile_all {p : Char → Bool} {A : Str} (h : ∀ a ∈ A, p a = true) :
    A.dropWhile p = [] := by
  have := dropWhile_append_all h []
  simpa using this

/-- Splitting at a delimiter recovers a concatenation in which the first
half avoids the delimiter and the second half starts with it or is empty. -/
theorem splitFirst_eq {c : Char} {A B : Str} (hA : c ∉ A)
    (hB : B = [] ∨ B.head? = some c) : splitFirst c (A ++ B) = (A, B) := by
  have hall : ∀ a ∈ A, (decide (a ≠ c)) = true := by
    intro a ha
    simp only [decide_eq_true_eq, ne_eq]
    intro h
    exact hA (h ▸ ha)
  unfold splitFirst
  rcases hB with rfl | hB
  · rw [List.append_nil, takeWhile_all hall, dropWhile_all hall]
  · match B, hB with
    | b :: B, hB =>
      have hb : b = c := by simpa using hB
      subst hb
      rw [takeWhile_append_all hall, dropWhile_append_all hall]
      simp [List.takeWhile_cons, List.dropWhile_cons]

/-- The head of the remainder after dropWhile fails the predicate. -/
theorem head_dropWhile_false {p : Char → Bool} :
    ∀ {l : Str} {c : Char}, (l.dropWhile p).head? = some c → p c = false := by
  intro l
  induction l with
  | nil => intro c h; simp at h
  | cons a l ih =>
    intro c h
    by_cases ha : p a
    · rw [List.dropWhile_cons, if_pos ha] at h
      exact ih h
    · rw [List.dropWhile_cons, if_neg ha] at h
      simp only [List.head?_cons, Option.some.injEq] at h
      subst h
      exact Bool.of_not_eq_true ha

/-! ### Shape lemmas for the stored-byte predicates -/

theorem eq_dropLast_append {l : Str} {c : Char} (h : l.getLast? = some c) :
    l = l.dropLast ++ [c] := by
  have : c ∈ l.getLast? := by rw [h]; rfl
  exact (List.dropLast_append_getLast? c this).symm

theorem head?_eq_cons {l : Str} {c : Char} (h : l.head? = some c) :
    ∃ t, l = c :: t := by
  cases l with
  | nil => simp at h
  | cons a t =>
    simp only [List.head?_cons, Option.some.injEq] at h
    exact ⟨t, by rw [h]⟩

theorem getLast?_cons_of_ne {c : Char} {rest : Str} (hne : rest ≠ [])
    {x : Char} (h : (c :: rest).getLast? = some x) : rest.getLast? = some x := by
  match rest, hne with
  | r :: t, _ => rwa [List.getLast?_cons_cons] at h

theorem schemePartOK_elim {l : Str} (h : schemePartOK l = true) :
    l = [] ∨ ∃ c s0, l = c :: (s0 ++ [':']) ∧ isAlphaC c = true ∧
      s0.all isSchemeChar = true := by
  match l with
  | [] => exact Or.inl rfl
  | c :: rest =>
    refine Or.inr ?_
    rw [schemePartOK] at h
    simp only [Bool.and_eq_true, decide_eq_true_eq] at h
    obtain ⟨⟨⟨hc, hall⟩, hlast⟩, hne⟩ := h
    refine ⟨c, rest.dropLast, ?_, hc, hall⟩
    have hlast2 : rest.getLast? = some ':' := getLast?_cons_of_ne hne hlast
    exact congrArg (c :: ·) (eq_dropLast_append hlast2)

theorem passPartOK_elim {l : Str} (h : passPartOK l = true) :
    l = [] ∨ l = ['@'] ∨ ∃ mid, l = ':' :: (mid ++ ['@']) ∧
      pctOK isPassChar mid = true := by
  rw [passPartOK] at h
  simp only [Bool.or_eq_true, Bool.and_eq_true, decide_eq_true_eq] at h
  rcases h with (h | h) | ⟨⟨hh, hl⟩, hmid⟩
  · exact Or.inl h
  · exact Or.inr (Or.inl h)
  · refine Or.inr (Or.inr ?_)
    obtain ⟨t, rfl⟩ := head?_eq_cons hh
    have ht : t ≠ [] := by
      rintro rfl
      simp at hl
    have hlt : t.getLast? = some '@' := getLast?_cons_of_ne ht hl
    refine ⟨t.dropLast, ?_, ?_⟩
    · exact congrArg (':' :: ·) (eq_dropLast_append hlt)
    · simpa using hmid

theorem userPartOK_elim {l : Str} (h : userPartOK l = true) :
    l = [] ∨ ∃ u, l = '/' :: '/' :: u ∧ pctOK isUserChar u = true := by
  rw [userPartOK] at h
  simp only [Bool.or_eq_true, Bool.and_eq_true, List.isEmpty_iff,
    decide_eq_true_eq] at h
  rcases h with h | ⟨ht, hu⟩
  · exact Or.inl h
  · match l, ht, hu with
    | [], ht, _ => exact absurd ht (by simp)
    | [c], ht, _ => exact absurd ht (by simp [List.take])
    | c1 :: c2 :: t, ht, hu =>
      refine Or.inr ⟨t, ?_, by simpa using hu⟩
      have h12 : c1 = '/' ∧ c2 = '/' := by
        simpa [List.take] using ht
      rw [h12.1, h12.2]

theorem hostPartOK_elim {l : Str} (h : hostPartOK l = true) :
    (∃ inner, l = '[' :: (inner ++ [']']) ∧ inner.all isIPLiteralChar = true) ∨
      (l.head? ≠ some '[' ∧ pctOK isRegNameChar l = true) := by
  rw [hostPartOK] at h
  by_cases hh : l.head? = some '['
  · rw [if_pos hh] at h
    simp only [Bool.and_eq_true, decide_eq_true_eq] at h
    obtain ⟨hlast, hall⟩ := h
    obtain ⟨t, rfl⟩ := head?_eq_cons hh
    have ht : t ≠ [] := by
      rintro rfl
      simp at hlast
    have hlt : t.getLast? = some ']' := getLast?_cons_of_ne ht hlast
    refine Or.inl ⟨t.dropLast, congrArg ('[' :: ·) (eq_dropLast_append hlt), ?_⟩
    simpa using hall
  · rw [if_neg hh] at h
    exact Or.inr ⟨hh, h⟩

theorem portPartOK_elim {l : Str} (h : portPartOK l = true) :
    l = [] ∨ ∃ d, l = ':' :: d ∧ d.all isDigitC = true := by
  rw [portPartOK] at h
  simp only [Bool.or_eq_true, Bool.and_eq_true, decide_eq_true_eq] at h
  rcases h with h | ⟨hh, hd⟩
  · exact Or.inl h
  · obtain ⟨t, rfl⟩ := head?_eq_cons hh
    exact Or.inr ⟨t, rfl, by simpa using hd⟩

theorem queryPartOK_elim {l : Str} (h : queryPartOK l = true) :
    l = [] ∨ ∃ q, l = '?' :: q ∧ pctOK isQFChar q = true := by
  rw [queryPartOK] at h
  simp only [Bool.or_eq_true, Bool.and_eq_true, decide_eq_true_eq] at h
  rcases h with h | ⟨hh, hq⟩
  · exact Or.inl h
  · obtain ⟨t, rfl⟩ := head?_eq_cons hh
    exact Or.inr ⟨t, rfl, by simpa using hq⟩

theorem fragPartOK_elim {l : Str} (h : fragPartOK l = true) :
    l = [] ∨ ∃ f, l = '#' :: f ∧ pctOK isQFChar f = true := by
  rw [fragPartOK] at h
  simp only [Bool.or_eq_true, Bool.and_eq_true, decide_eq_true_eq] at h
  rcases h with h | ⟨hh, hf⟩
  · exact Or.inl h
  · obtain ⟨t, rfl⟩ := head?_eq_cons hh
    exact Or.inr ⟨t, rfl, by simpa using hf⟩

theorem authOK_elim {us pa ho po : Str} (h : authOK us pa ho po = true) :
    (us = [] ∧ pa = [] ∧ ho = [] ∧ po = []) ∨
      (∃ u, us = '/' :: '/' :: u ∧ pctOK isUserChar u = true ∧
        passPartOK pa = true ∧ hostPartOK ho = true ∧ portPartOK po = true ∧
        (pa = [] → u = [])) := by
  rw [authOK] at h
  by_cases hus : us.isEmpty
  · rw [if_pos hus] at h
    simp only [Bool.and_eq_true, List.isEmpty_iff] at h hus
    exact Or.inl ⟨hus, h.1.1, h.1.2, h.2⟩
  · rw [if_neg hus] at h
    simp only [Bool.and_eq_true, Bool.or_eq_true] at h
    obtain ⟨⟨⟨⟨h1, h2⟩, h3⟩, h4⟩, h5⟩ := h
    rcases userPartOK_elim h1 with h1 | ⟨u, rfl, hu⟩
    · exact absurd (by simp [h1]) hus
    · refine Or.inr ⟨u, rfl, hu, h2, h3, h4, ?_⟩
      intro hpa
      subst hpa
      rcases h5 with h5 | h5
      · simp at h5
      · simpa [List.isEmpty_iff] using h5

/-! ### Delimiters do not occur inside components -/

theorem not_mem_scheme {l : Str} (h : schemePartOK l = true) {c : Char}
    (h1 : isSchemeChar c = false) (h2 : c ≠ ':') : c ∉ l := by
  rcases schemePartOK_elim h with rfl | ⟨c0, s0, rfl, hA, hall⟩
  · simp
  · intro hc
    simp only [List.mem_cons, List.mem_append] at hc
    rcases hc with rfl | hc | rfl | hc0
    · rw [isSchemeChar, hA] at h1
      simp at h1
    · exact all_not_mem hall h1 hc
    · exact h2 rfl
    · simp at hc0

theorem not_mem_user {l : Str} (h : userPartOK l = true) {c : Char}
    (h1 : isUserChar c = false) (hhex : isHexDigC c = false) (hpct : c ≠ '%')
    (hsl : c ≠ '/') : c ∉ l := by
  rcases userPartOK_elim h with rfl | ⟨u, rfl, hu⟩
  · simp
  · intro hc
    simp only [List.mem_cons] at hc
    rcases hc with rfl | rfl | hc
    · exact hsl rfl
    · exact hsl rfl
    · exact pctOK_not_mem hu h1 hhex hpct hc

theorem not_mem_pass {l : Str} (h : passPartOK l = true) {c : Char}
    (h1 : isPassChar c = false) (hhex : isHexDigC c = false) (hpct : c ≠ '%')
    (hat : c ≠ '@') : c ∉ l := by
  rcases passPartOK_elim h with rfl | rfl | ⟨mid, rfl, hmid⟩
  · simp
  · intro hc
    simp only [List.mem_singleton] at hc
    exact hat hc
  · intro hc
    simp only [List.mem_cons, List.mem_append] at hc
    rcases hc with rfl | hc | rfl | hc0
    · rw [isPassChar] at h1
      simp at h1
    · exact pctOK_not_mem hmid h1 hhex hpct hc
    · exact hat rfl
    · simp at hc0

theorem not_mem_host {l : Str} (h : hostPartOK l = true) {c : Char}
    (h1 : isRegNameChar c = false) (h2 : isIPLiteralChar c = false)
    (hhex : isHexDigC c = false) (hpct : c ≠ '%')
    (hb1 : c ≠ '[') (hb2 : c ≠ ']') : c ∉ l := by
  rcases hostPartOK_elim h with ⟨inner, rfl, hall⟩ | ⟨_, hreg⟩
  · intro hc
    simp only [List.mem_cons, List.mem_append] at hc
    rcases hc with rfl | hc | rfl | hc0
    · exact hb1 rfl
    · exact all_not_mem hall h2 hc
    · exact hb2 rfl
    · simp at hc0
  · exact pctOK_not_mem hreg h1 hhex hpct

theorem not_mem_port {l : Str} (h : portPartOK l = true) {c : Char}
    (h1 : isDigitC c = false) (h2 : c ≠ ':') : c ∉ l := by
  rcases portPartOK_elim h with rfl | ⟨d, rfl, hd⟩
  · simp
  · intro hc
    simp only [List.mem_cons] at hc
    rcases hc with rfl | hc
    · exact h2 rfl
    · exact all_not_mem hd h1 hc

theorem pathOK_pct {hs ha : Bool} {p : Str} (h : pathOK hs ha p = true) :
    pctOK isPathChar p = true := by
  rw [pathOK] at h
  simp only [Bool.and_eq_true] at h
  exact h.1

theorem not_mem_path {hs ha : Bool} {p : Str} (h : pathOK hs ha p = true) {c : Char}
    (h1 : isPathChar c = false) (hhex : isHexDigC c = false) (hpct : c ≠ '%') :
    c ∉ p :=
  pctOK_not_mem (pathOK_pct h) h1 hhex hpct

theorem not_mem_query {l : Str} (h : queryPartOK l = true) {c : Char}
    (h1 : isQFChar c = false) (hhex : isHexDigC c = false) (hpct : c ≠ '%')
    (hq : c ≠ '?') : c ∉ l := by
  rcases queryPartOK_elim h with rfl | ⟨q, rfl, hq2⟩
  · simp
  · intro hc
    simp only [List.mem_cons] at hc
    rcases hc with rfl | hc
    · exact hq rfl
    · exact pctOK_not_mem hq2 h1 hhex hpct hc

/-! ### Stage lemmas for the round trip -/

theorem isSchemeChar_of_alpha {c : Char} (h : isAlphaC c = true) :
    isSchemeChar c = true := by
  rw [isSchemeChar, h]
  rfl

theorem takeSchemePart_pos {c : Char} {s0 : Str} (R : Str) (hA : isAlphaC c = true)
    (hall : s0.all isSchemeChar = true) :
    takeSchemePart (c :: (s0 ++ ':' :: R)) = (c :: (s0 ++ [':']), R) := by
  have hcs : ∀ a ∈ c :: s0, isSchemeChar a = true := by
    intro a ha
    rcases List.mem_cons.mp ha with rfl | ha
    · exact isSchemeChar_of_alpha hA
    · exact List.all_eq_true.mp hall a ha
  have hsplit : c :: (s0 ++ ':' :: R) = (c :: s0) ++ (':' :: R) := by simp
  have h1 : (c :: (s0 ++ ':' :: R)).takeWhile isSchemeChar = c :: s0 := by
    rw [hsplit, takeWhile_append_all hcs, List.takeWhile_cons]
    simp [(by decide : isSchemeChar ':' = false)]
  have h2 : (c :: (s0 ++ ':' :: R)).dropWhile isSchemeChar = ':' :: R := by
    rw [hsplit, dropWhile_append_all hcs, List.dropWhile_cons]
    simp [(by decide : isSchemeChar ':' = false)]
  simp only [takeSchemePart, h1, h2, List.head?_cons, List.drop_succ_cons,
    List.drop_zero]
  simp [hA]

theorem takeSchemePart_nil : takeSchemePart [] = ([], []) := rfl

theorem takeSchemePart_slash (t : Str) : takeSchemePart ('/' :: t) = ([], '/' :: t) := by
  rw [takeSchemePart]
  simp [List.takeWhile_cons, (by decide : isSchemeChar '/' = false)]

theorem takeSchemePart_noscheme {p : Str}
    (hnc : pctOK isNCChar (p.takeWhile (fun c => c ≠ '/')) = true) :
    takeSchemePart p = ([], p) := by
  rcases hrun : p.takeWhile isSchemeChar with _ | ⟨r, rt⟩
  · rw [takeSchemePart]
    simp [hrun]
  · by_cases hcol : (p.dropWhile isSchemeChar).head? = some ':'
    · exfalso
      obtain ⟨tail, hdrop⟩ := head?_eq_cons hcol
      have hp : (p.takeWhile isSchemeChar) ++ (':' :: tail) = p := by
        rw [← hdrop]
        exact List.takeWhile_append_dropWhile _ _
      have hall : ∀ a ∈ p.takeWhile isSchemeChar, (decide (a ≠ '/')) = true := by
        intro a ha
        have hsc : isSchemeChar a = true := List.mem_takeWhile_imp ha
        simp only [decide_eq_true_eq, ne_eq]
        rintro rfl
        rw [(by decide : isSchemeChar '/' = false)] at hsc
        exact Bool.false_ne_true hsc
      have hmem : ':' ∈ p.takeWhile (fun c => c ≠ '/') := by
        conv_lhs => skip
        rw [← hp, takeWhile_append_all hall, List.takeWhile_cons]
        simp
      exact pctOK_not_mem hnc (by decide) (by decide) (by decide) hmem
    · rw [takeSchemePart]
      simp only [hrun, List.head?_cons]
      rw [if_neg]
      intro hand
      exact hcol hand.2

theorem decide_ne_of_not_mem {c : Char} {l : Str} (h : c ∉ l) :
    ∀ a ∈ l, (decide (a ≠ c)) = true := by
  intro a ha
  simp only [decide_eq_true_eq, ne_eq]
  rintro rfl
  exact h ha

theorem pathOK_abempty {hs : Bool} {p : Str} (h : pathOK hs true p = true) :
    p = [] ∨ p.head? = some '/' := by
  rw [pathOK] at h
  simp only [Bool.and_eq_true] at h
  have h2 := h.2
  simp only [if_true, Bool.or_eq_true, List.isEmpty_iff, decide_eq_true_eq] at h2
  exact h2

theorem pathOK_elim_noauth {hs : Bool} {p : Str} (h : pathOK hs false p = true) :
    p = [] ∨ (p.head? = some '/' ∧ (p.drop 1).head? ≠ some '/') ∨
      (p.head? ≠ some '/' ∧
        (hs = true ∨ pctOK isNCChar (p.takeWhile (fun c => c ≠ '/')) = true)) := by
  rw [pathOK] at h
  simp only [Bool.and_eq_true] at h
  have h2 := h.2
  rw [if_neg (by simp : ¬ (false = true))] at h2
  by_cases he : p.isEmpty
  · exact Or.inl (List.isEmpty_iff.mp he)
  · rw [if_neg he] at h2
    by_cases hh : p.head? = some '/'
    · rw [if_pos hh] at h2
      simp only [decide_eq_true_eq] at h2
      exact Or.inr (Or.inl ⟨hh, h2⟩)
    · rw [if_neg hh] at h2
      by_cases hsc : hs = true
      · exact Or.inr (Or.inr ⟨hh, Or.inl hsc⟩)
      · have : hs = false := Bool.eq_false_iff.mpr hsc
        rw [this, if_neg (by simp : ¬ (false = true))] at h2
        exact Or.inr (Or.inr ⟨hh, Or.inr h2⟩)

theorem take2_slashslash_iff {p : Str} :
    p.take 2 = ['/', '/'] ↔ p.head? = some '/' ∧ (p.drop 1).head? = some '/' := by
  match p with
  | [] => simp
  | [c] => simp [List.take]
  | c1 :: c2 :: t =>
    simp [List.take, and_assoc]

theorem parseHostPort_eq {ho po : Str} (hho : hostPartOK ho = true)
    (hpo : portPartOK po = true) : parseHostPort (ho ++ po) = (ho, po) := by
  rcases hostPartOK_elim hho with ⟨inner, rfl, hall⟩ | ⟨hhd, hreg⟩
  · have hshape : ('[' :: (inner ++ [']'])) ++ po = '[' :: (inner ++ ']' :: po) := by
      simp
    have hinner : ∀ a ∈ inner, (decide (a ≠ ']')) = true := by
      apply decide_ne_of_not_mem
      exact all_not_mem hall (by decide)
    rw [hshape, parseHostPort]
    rw [if_pos (by simp)]
    have ht : (inner ++ ']' :: po).takeWhile (fun a => decide (a ≠ ']')) = inner := by
      rw [takeWhile_append_all hinner, List.takeWhile_cons]
      simp
    have hd : (inner ++ ']' :: po).dropWhile (fun a => decide (a ≠ ']')) = ']' :: po := by
      rw [dropWhile_append_all hinner, List.dropWhile_cons]
      simp
    simp only [List.drop_succ_cons, List.drop_zero, ht, hd]
    simp
  · rw [parseHostPort]
    have hcolon : ':' ∉ ho := pctOK_not_mem hreg (by decide) (by decide) (by decide)
    have hhead : ¬ ((ho ++ po).head? = some '[') := by
      match ho with
      | [] =>
        simp only [List.nil_append]
        rcases portPartOK_elim hpo with rfl | ⟨d, rfl, _⟩
        · simp
        · simp
      | c :: t =>
        simp only [List.cons_append, List.head?_cons]
        simpa using hhd
    rw [if_neg hhead]
    have hsp := splitFirst_eq (c := ':') hcolon (B := po) ?_
    · rw [splitFirst] at hsp
      have h1 := congrArg Prod.fst hsp
      have h2 := congrArg Prod.snd hsp
      simp only at h1 h2
      rw [h1, h2]
    · rcases portPartOK_elim hpo with rfl | ⟨d, rfl, _⟩
      · exact Or.inl rfl
      · exact Or.inr rfl

theorem parseAuthority_eq {u pa ho po : Str} (hu : pctOK isUserChar u = true)
    (hpa : passPartOK pa = true) (hho : hostPartOK ho = true)
    (hpo : portPartOK po = true) (hcoh : pa = [] → u = []) :
    parseAuthority (u ++ (pa ++ (ho ++ po))) = ('/' :: '/' :: u, pa, ho, po) := by
  have hathost : '@' ∉ ho :=
    not_mem_host hho (by decide) (by decide) (by decide) (by decide) (by decide)
      (by decide)
  have hatport : '@' ∉ po := not_mem_port hpo (by decide) (by decide)
  have hatuser : '@' ∉ u := pctOK_not_mem hu (by decide) (by decide) (by decide)
  have hcoluser : ':' ∉ u := pctOK_not_mem hu (by decide) (by decide) (by decide)
  rcases passPartOK_elim hpa with rfl | rfl | ⟨mid, rfl, hmid⟩
  · -- no userinfo at all
    have hu0 : u = [] := hcoh rfl
    subst hu0
    simp only [List.nil_append]
    have hat : ∀ a ∈ ho ++ po, (decide (a ≠ '@')) = true := by
      apply decide_ne_of_not_mem
      intro hmem
      rcases List.mem_append.mp hmem with hmem | hmem
      · exact hathost hmem
      · exact hatport hmem
    rw [parseAuthority]
    rw [dropWhile_all hat]
    simp only [List.isEmpty_nil, if_true]
    rw [parseHostPort_eq hho hpo]
  · -- userinfo present, no password: pass bytes are "@"
    have hu' : ∀ a ∈ u, (decide (a ≠ '@')) = true := decide_ne_of_not_mem hatuser
    have hu2 : ∀ a ∈ u, (decide (a ≠ ':')) = true := decide_ne_of_not_mem hcoluser
    have hshape : u ++ (['@'] ++ (ho ++ po)) = u ++ ('@' :: (ho ++ po)) := by simp
    have htw : (u ++ ('@' :: (ho ++ po))).takeWhile (fun a => decide (a ≠ '@')) = u := by
      rw [takeWhile_append_all hu', List.takeWhile_cons]
      simp
    have hdw : (u ++ ('@' :: (ho ++ po))).dropWhile (fun a => decide (a ≠ '@')) =
        '@' :: (ho ++ po) := by
      rw [dropWhile_append_all hu', List.dropWhile_cons]
      simp
    have htw2 : u.takeWhile (fun a => decide (a ≠ ':')) = u := takeWhile_all hu2
    have hdw2 : u.dropWhile (fun a => decide (a ≠ ':')) = [] := dropWhile_all hu2
    rw [hshape, parseAuthority]
    simp only [htw, hdw, htw2, hdw2, List.isEmpty_cons, List.drop_succ_cons,
      List.drop_zero, Bool.false_eq_true, if_false, List.nil_append,
      parseHostPort_eq hho hpo]
  · -- userinfo with password: pass bytes are ":" mid "@"
    have hatmid : '@' ∉ mid :=
      pctOK_not_mem hmid (by decide) (by decide) (by decide)
    have hui : ∀ a ∈ u ++ ':' :: mid, (decide (a ≠ '@')) = true := by
      apply decide_ne_of_not_mem
      intro hmem
      simp only [List.mem_append, List.mem_cons] at hmem
      rcases hmem with hmem | hmem | hmem
      · exact hatuser hmem
      · exact absurd hmem (by decide)
      · exact hatmid hmem
    have hu2 : ∀ a ∈ u, (decide (a ≠ ':')) = true := decide_ne_of_not_mem hcoluser
    have hshape : u ++ ((':' :: (mid ++ ['@'])) ++ (ho ++ po)) =
        (u ++ ':' :: mid) ++ ('@' :: (ho ++ po)) := by simp
    have htw : ((u ++ ':' :: mid) ++ ('@' :: (ho ++ po))).takeWhile
        (fun a => decide (a ≠ '@')) = u ++ ':' :: mid := by
      rw [takeWhile_append_all hui, List.takeWhile_cons]
      simp
    have hdw : ((u ++ ':' :: mid) ++ ('@' :: (ho ++ po))).dropWhile
        (fun a => decide (a ≠ '@')) = '@' :: (ho ++ po) := by
      rw [dropWhile_append_all hui, List.dropWhile_cons]
      simp
    have htw2 : (u ++ ':' :: mid).takeWhile (fun a => decide (a ≠ ':')) = u := by
      rw [takeWhile_append_all hu2, List.takeWhile_cons]
      simp
    have hdw2 : (u ++ ':' :: mid).dropWhile (fun a => decide (a ≠ ':')) =
        ':' :: mid := by
      rw [dropWhile_append_all hu2, List.dropWhile_cons]
      simp
    rw [hshape, parseAuthority]
    simp only [htw, hdw, htw2, hdw2, List.isEmpty_cons, List.drop_succ_cons,
      List.drop_zero, Bool.false_eq_true, if_false, parseHostPort_eq hho hpo]
    simp

theorem parseAfterScheme_auth {u pa ho po pth : Str} (hu : pctOK isUserChar u = true)
    (hpa : passPartOK pa = true) (hho : hostPartOK ho = true)
    (hpo : portPartOK po = true) (hcoh : pa = [] → u = [])
    (hpth : pth = [] ∨ pth.head? = some '/') :
    parseAfterScheme ('/' :: '/' :: (u ++ (pa ++ (ho ++ (po ++ pth))))) =
      ('/' :: '/' :: u, pa, ho, po, pth) := by
  have hslu : '/' ∉ u := pctOK_not_mem hu (by decide) (by decide) (by decide)
  have hslpa : '/' ∉ pa :=
    not_mem_pass hpa (by decide) (by decide) (by decide) (by decide)
  have hslho : '/' ∉ ho :=
    not_mem_host hho (by decide) (by decide) (by decide) (by decide) (by decide)
      (by decide)
  have hslpo : '/' ∉ po := not_mem_port hpo (by decide) (by decide)
  have hA : '/' ∉ u ++ (pa ++ (ho ++ po)) := by
    intro hmem
    simp only [List.mem_append] at hmem
    rcases hmem with hmem | hmem | hmem | hmem
    · exact hslu hmem
    · exact hslpa hmem
    · exact hslho hmem
    · exact hslpo hmem
  have hshape : u ++ (pa ++ (ho ++ (po ++ pth))) = (u ++ (pa ++ (ho ++ po))) ++ pth := by
    simp
  rw [parseAfterScheme]
  rw [if_pos (by simp [List.take])]
  simp only [List.drop_succ_cons, List.drop_zero]
  rw [hshape]
  have hsp := splitFirst_eq (c := '/') hA hpth
  rw [splitFirst] at hsp
  have h1 := congrArg Prod.fst hsp
  have h2 := congrArg Prod.snd hsp
  simp only at h1 h2
  rw [h1, h2, parseAuthority_eq hu hpa hho hpo hcoh]

theorem parseAfterScheme_noauth {p : Str} (hp : ¬ (p.take 2 = ['/', '/'])) :
    parseAfterScheme p = ([], [], [], [], p) := by
  rw [parseAfterScheme, if_neg hp]

theorem not_mem_authority {us pa ho po : Str} (h : authOK us pa ho po = true)
    {c : Char} (h1 : isUserChar c = false) (h2 : isPassChar c = false)
    (h3 : isRegNameChar c = false) (h4 : isIPLiteralChar c = false)
    (h5 : isDigitC c = false) (hhex : isHexDigC c = false) (hpct : c ≠ '%')
    (hsl : c ≠ '/') (hat : c ≠ '@') (hcol : c ≠ ':') (hb1 : c ≠ '[')
    (hb2 : c ≠ ']') : c ∉ us ∧ c ∉ pa ∧ c ∉ ho ∧ c ∉ po := by
  rcases authOK_elim h with ⟨rfl, rfl, rfl, rfl⟩ | ⟨u, rfl, hu, hpa, hho, hpo, _⟩
  · simp
  · refine ⟨?_, not_mem_pass hpa h2 hhex hpct hat,
      not_mem_host hho h3 h4 hhex hpct hb1 hb2, not_mem_port hpo h5 hcol⟩
    intro hmem
    simp only [List.mem_cons] at hmem
    rcases hmem with rfl | rfl | hmem
    · exact hsl rfl
    · exact hsl rfl
    · exact pctOK_not_mem hu h1 hhex hpct hmem

/-- The splitting stage recovers every component of a state satisfying
the data-model invariant. -/
theorem splitUrl_serialize {st : UrlState} (h : validState st = true) :
    splitUrl (serializeUrl st) = st := by
  obtain ⟨sc, us, pa, ho, po, pth, qu, fr⟩ := st
  rw [validState] at h
  simp only [Bool.and_eq_true] at h
  obtain ⟨⟨⟨⟨hsc, hauth⟩, hpath⟩, hqu⟩, hfr⟩ := h
  have hfrS : fr = [] ∨ fr.head? = some '#' := by
    rcases fragPartOK_elim hfr with rfl | ⟨f, rfl, _⟩
    · exact Or.inl rfl
    · exact Or.inr rfl
  have hquS : qu = [] ∨ qu.head? = some '?' := by
    rcases queryPartOK_elim hqu with rfl | ⟨q, rfl, _⟩
    · exact Or.inl rfl
    · exact Or.inr rfl
  have hauth1 := not_mem_authority (c := '#') hauth (by decide) (by decide)
    (by decide) (by decide) (by decide) (by decide) (by decide) (by decide)
    (by decide) (by decide) (by decide) (by decide)
  have hauth2 := not_mem_authority (c := '?') hauth (by decide) (by decide)
    (by decide) (by decide) (by decide) (by decide) (by decide) (by decide)
    (by decide) (by decide) (by decide) (by decide)
  have hnohash : '#' ∉ sc ++ us ++ pa ++ ho ++ po ++ pth ++ qu := by
    intro hmem
    simp only [List.mem_append] at hmem
    rcases hmem with ((((((hmem | hmem) | hmem) | hmem) | hmem) | hmem) | hmem)
    · exact not_mem_scheme hsc (by decide) (by decide) hmem
    · exact hauth1.1 hmem
    · exact hauth1.2.1 hmem
    · exact hauth1.2.2.1 hmem
    · exact hauth1.2.2.2 hmem
    · exact not_mem_path hpath (by decide) (by decide) (by decide) hmem
    · exact not_mem_query hqu (by decide) (by decide) (by decide) (by decide) hmem
  have hnoq : '?' ∉ sc ++ us ++ pa ++ ho ++ po ++ pth := by
    intro hmem
    simp only [List.mem_append] at hmem
    rcases hmem with (((((hmem | hmem) | hmem) | hmem) | hmem) | hmem)
    · exact not_mem_scheme hsc (by decide) (by decide) hmem
    · exact hauth2.1 hmem
    · exact hauth2.2.1 hmem
    · exact hauth2.2.2.1 hmem
    · exact hauth2.2.2.2 hmem
    · exact not_mem_path hpath (by decide) (by decide) (by decide) hmem
  have e1 : splitFirst '#' (sc ++ us ++ pa ++ ho ++ po ++ pth ++ qu ++ fr) =
      (sc ++ us ++ pa ++ ho ++ po ++ pth ++ qu, fr) := splitFirst_eq hnohash hfrS
  have e2 : splitFirst '?' (sc ++ us ++ pa ++ ho ++ po ++ pth ++ qu) =
      (sc ++ us ++ pa ++ ho ++ po ++ pth, qu) := by
    have := splitFirst_eq (A := sc ++ us ++ pa ++ ho ++ po ++ pth) hnoq hquS
    exact this
  rcases authOK_elim hauth with ⟨rfl, rfl, rfl, rfl⟩ |
    ⟨u, rfl, huu, hpa, hho, hpo, hcoh⟩
  · -- no authority: everything after the scheme is the path
    have hpath2 : pathOK (!sc.isEmpty) false pth = true := by simpa using hpath
    have hL : pth.take 2 ≠ ['/', '/'] := by
      rcases pathOK_elim_noauth hpath2 with rfl | ⟨hh, hh2⟩ | ⟨hh, _⟩
      · simp
      · intro habs
        exact hh2 (take2_slashslash_iff.mp habs).2
      · intro habs
        exact hh (take2_slashslash_iff.mp habs).1
    have e4 : parseAfterScheme pth = ([], [], [], [], pth) :=
      parseAfterScheme_noauth hL
    rcases schemePartOK_elim hsc with rfl | ⟨c, s0, rfl, hA, hall⟩
    · -- no scheme either
      have hpath3 : pathOK false false pth = true := by simpa using hpath2
      have e3 : takeSchemePart pth = ([], pth) := by
        rcases pathOK_elim_noauth hpath3 with rfl | ⟨hh, _⟩ | ⟨_, hncs⟩
        · exact takeSchemePart_nil
        · obtain ⟨t, rfl⟩ := head?_eq_cons hh
          exact takeSchemePart_slash t
        · rcases hncs with hfalse | hnc
          · exact absurd hfalse (by simp)
          · exact takeSchemePart_noscheme hnc
      simp only [List.nil_append] at e1 e2
      simp only [serializeUrl, splitUrl, List.nil_append, e1, e2, e3, e4]
    · -- scheme and no authority
      have harg : (c :: (s0 ++ [':'])) ++ [] ++ [] ++ [] ++ [] ++ pth =
          c :: (s0 ++ ':' :: pth) := by simp
      have e3 : takeSchemePart ((c :: (s0 ++ [':'])) ++ [] ++ [] ++ [] ++ [] ++ pth) =
          (c :: (s0 ++ [':']), pth) := by
        rw [harg, takeSchemePart_pos pth hA hall]
      simp only [serializeUrl, splitUrl, e1, e2, e3, e4]
  · -- authority present
    have hus : (('/' :: '/' :: u : Str).isEmpty) = false := rfl
    have hpath2 : pathOK (!sc.isEmpty) true pth = true := by
      simpa [hus] using hpath
    have hpthS : pth = [] ∨ pth.head? = some '/' := pathOK_abempty hpath2
    have e4 : parseAfterScheme ('/' :: '/' :: (u ++ (pa ++ (ho ++ (po ++ pth))))) =
        ('/' :: '/' :: u, pa, ho, po, pth) :=
      parseAfterScheme_auth huu hpa hho hpo hcoh hpthS
    rcases schemePartOK_elim hsc with rfl | ⟨c, s0, rfl, hA, hall⟩
    · -- authority without scheme
      have harg : ([] : Str) ++ ('/' :: '/' :: u) ++ pa ++ ho ++ po ++ pth =
          '/' :: '/' :: (u ++ (pa ++ (ho ++ (po ++ pth)))) := by simp
      have e3 : takeSchemePart (([] : Str) ++ ('/' :: '/' :: u) ++ pa ++ ho ++ po ++ pth) =
          ([], '/' :: '/' :: (u ++ (pa ++ (ho ++ (po ++ pth))))) := by
        rw [harg]
        exact takeSchemePart_slash _
      simp only [serializeUrl, splitUrl, e1, e2, e3, e4]
    · -- scheme and authority
      have harg : (c :: (s0 ++ [':'])) ++ ('/' :: '/' :: u) ++ pa ++ ho ++ po ++ pth =
          c :: (s0 ++ ':' :: ('/' :: '/' :: (u ++ (pa ++ (ho ++ (po ++ pth)))))) := by
        simp
      have e3 : takeSchemePart
          ((c :: (s0 ++ [':'])) ++ ('/' :: '/' :: u) ++ pa ++ ho ++ po ++ pth) =
          (c :: (s0 ++ [':']), '/' :: '/' :: (u ++ (pa ++ (ho ++ (po ++ pth))))) := by
        rw [harg, takeSchemePart_pos _ hA hall]
      simp only [serializeUrl, splitUrl, e1, e2, e3, e4]

/-- Round trip: parsing the serialized URL of a state satisfying the
data-model invariant succeeds and recovers exactly the same state. -/
theorem parse_serializeUrl {st : UrlState} (h : validState st = true) :
    parseUrl (serializeUrl st) = some st := by
  rw [parseUrl, splitUrl_serialize h, if_pos h]

/-! ## The offset index (detail/parts.hpp)

parts stores the nine cumulative offsets; in this embedding they are
recovered from the stored component strings as cumulative lengths. -/

/-- The eight stored component strings in part-id order
(id_scheme, id_user, id_pass, id_host, id_port, id_path, id_query, id_frag). -/
def comps (st : UrlState) : List Str :=
  [st.scheme_part, st.user_part, st.pass_part, st.host_part,
   st.port_part, st.path_part, st.query_part, st.frag_part]

/-- The stored bytes of part id (0..7). -/
def compAt (st : UrlState) (id : Nat) : Str :=
  (comps st).getD id []

/-- offset[id]: the cumulative length of the stored bytes of all parts
before id; offset[8] plays the role of offset[id_end]. -/
def partsOffset (st : UrlState) (id : Nat) : Nat :=
  (((comps st).take id).map List.length).sum

/-- parts::length(id): offset[id + 1] - offset[id]. -/
def partsLength (st : UrlState) (id : Nat) : Nat :=
  partsOffset st (id + 1) - partsOffset st id

/-- parts::get(id, s): the string_view of s from offset[id] with length
offset[id + 1] - offset[id]. -/
def partsGet (st : UrlState) (id : Nat) (s : Str) : Str :=
  (s.drop (partsOffset st id)).take (partsOffset st (id + 1) - partsOffset st id)

/-- parts::get(begin, end, s): the string_view of s from offset[begin]
with length offset[end] - offset[begin]. -/
def partsGetRange (st : UrlState) (b e : Nat) (s : Str) : Str :=
  (s.drop (partsOffset st b)).take (partsOffset st e - partsOffset st b)

theorem serializeUrl_eq_flatten (st : UrlState) :
    serializeUrl st = (comps st).flatten := by
  obtain ⟨sc, us, pa, ho, po, pth, qu, fr⟩ := st
  simp [serializeUrl, comps, List.append_assoc]

theorem comps_length (st : UrlState) : (comps st).length = 8 := by
  obtain ⟨sc, us, pa, ho, po, pth, qu, fr⟩ := st
  rfl

theorem partsOffset_succ (st : UrlState) (i : Nat) (h : i < 8) :
    partsOffset st (i + 1) = partsOffset st i + (compAt st i).length := by
  have hlen : i < (comps st).length := by
    rw [comps_length]
    exact h
  rw [partsOffset, partsOffset, List.take_succ, List.map_append, List.sum_append]
  have hget : (comps st)[i]? = some ((comps st).getD i []) := by
    rw [List.getElem?_eq_getElem hlen, List.getD_eq_getElem _ _ hlen]
  rw [hget]
  simp [compAt]

theorem flatten_drop_offset (L : List Str) :
    ∀ (i : Nat), (L.flatten).drop (((L.take i).map List.length).sum) =
      (L.drop i).flatten := by
  induction L with
  | nil => simp
  | cons a L ih =>
    intro i
    cases i with
    | zero => simp
    | succ i =>
      simp only [List.take_succ_cons, List.map_cons, List.sum_cons,
        List.flatten_cons, List.drop_succ_cons]
      rw [← List.drop_drop, List.drop_left]
      exact ih i

theorem partsGet_eq (st : UrlState) (i : Nat) (h : i < 8) :
    partsGet st i (serializeUrl st) = compAt st i := by
  have hlen : i < (comps st).length := by
    rw [comps_length]
    exact h
  rw [partsGet, serializeUrl_eq_flatten, partsOffset_succ st i h]
  have hamount : partsOffset st i + (compAt st i).length - partsOffset st i =
      (compAt st i).length := by omega
  rw [hamount, partsOffset, flatten_drop_offset (comps st) i,
    List.drop_eq_getElem_cons hlen, List.flatten_cons]
  have hat : (comps st)[i] = compAt st i := (List.getD_eq_getElem _ _ hlen).symm
  rw [hat, List.take_left]

theorem partsOffset_end (st : UrlState) :
    partsOffset st 8 = (serializeUrl st).length := by
  rw [serializeUrl_eq_flatten, partsOffset]
  have htake : (comps st).take 8 = comps st :=
    List.take_of_length_le (by rw [comps_length])
  rw [htake]
  simp [List.length_flatten]

theorem partsOffset_zero (st : UrlState) : partsOffset st 0 = 0 := rfl

theorem partsGetRange_full (st : UrlState) :
    partsGetRange st 0 8 (serializeUrl st) = serializeUrl st := by
  rw [partsGetRange, partsOffset_zero, partsOffset_end]
  simp

/-! ## The raw parts record and parts::clear() (detail/parts.hpp) -/

/-- The host_type.hpp enumeration. -/
inductive HostType
  | none
  | name
  | ipv4
  | ipv6
  | ipvfuture
deriving DecidableEq, Repr

/-- The parts record of detail/parts.hpp: offset[id_end + 1],
decoded[id_end], ip_addr[16], nseg, nparam, port_number, host_type. -/
structure CParts where
  offset : Fin 9 → Nat
  decoded : Fin 8 → Nat
  ip_addr : Fin 16 → Nat
  nseg : Nat
  nparam : Nat
  port_number : Nat
  host_type : HostType

/-- parts::clear(): sets host_type to none and zeroes the offset array.
The loop that would zero decoded[] is commented out in the source
(marked "VFALCO This is not really needed"), so decoded is left with
its previous contents; nseg, nparam and port_number are not touched
either. -/
def CParts.clear (p : CParts) : CParts :=
  { p with host_type := HostType.none, offset := fun _ => 0 }

/-- parts::parts(): the default constructor only calls clear(), so the
decoded array keeps whatever values the uninitialized storage held. -/
def CParts.construct (garbage : CParts) : CParts :=
  garbage.clear

/-- A parts value whose decoded array holds stale non-zero counts. -/
def staleParts : CParts :=
  { offset := fun _ => 3, decoded := fun _ => 7, ip_addr := fun _ => 0,
    nseg := 2, nparam := 2, port_number := 80, host_type := HostType.ipv4 }

/-! ## IPv4 address matcher

Modelled from the spec: the implementation file of rfc/ip_v4address.hpp
is absent from the tree (only its test is present); the definition
follows spec section 4.3 IPv4Address: four dotted dec-octets, a
dec-octet being 1 to 3 digits with value 0 to 255 and no leading zero
on a multi-digit value, yielding 4 big-endian bytes. -/

/-- Split a string at every occurrence of a separator character. -/
def splitOnChar (sep : Char) : Str → List Str
  | [] => [[]]
  | c :: rest =>
    if c = sep then [] :: splitOnChar sep rest
    else
      match splitOnChar sep rest with
      | [] => [[c]]
      | g :: gs => (c :: g) :: gs

/-- Numeric value of a decimal digit. -/
def digitVal (c : Char) : Nat :=
  c.toNat - 48

/-- Modelled from the spec: dec-octet = 1-3 digits, value 0-255, no
leading zero on a multi-digit value. -/
def decOctet (g : Str) : Option Nat :=
  match g with
  | [c] => if isDigitC c then some (digitVal c) else none
  | [c1, c2] =>
    if isDigitC c1 && isDigitC c2 && c1 ≠ '0' then
      some (10 * digitVal c1 + digitVal c2)
    else none
  | [c1, c2, c3] =>
    if isDigitC c1 && isDigitC c2 && isDigitC c3 && c1 ≠ '0' &&
        decide (100 * digitVal c1 + 10 * digitVal c2 + digitVal c3 ≤ 255) then
      some (100 * digitVal c1 + 10 * digitVal c2 + digitVal c3)
    else none
  | _ => none

/-- Modelled from the spec: the IPv4address matcher consuming the whole
input: dec-octet "." dec-octet "." dec-octet "." dec-octet, yielding
the 4 bytes in big-endian order. -/
def ipv4Full (l : Str) : Option (List Nat) :=
  match splitOnChar '.' l with
  | [a, b, c, d] =>
    match decOctet a, decOctet b, decOctet c, decOctet d with
    | some w, some x, some y, some z => some [w, x, y, z]
    | _, _, _, _ => none
  | _ => none

/-- The 32-bit big-endian value of a 4-byte list, as computed by the
check helper of test/rfc/ip_v4address.cpp. -/
def getU32 (bs : List Nat) : Nat :=
  (List.range 4).foldl (fun acc k => acc * 256 + bs.getD k 0) 0

/-! ## IPv6 address matcher

Modelled from the spec: the implementation of rfc/ipv6_address_bnf.hpp
is absent from the tree (only its test is present); the definition
follows spec section 4.3 IPv6Address: up to 8 h16 groups separated by
":", one optional "::" compressing at least one zero group, an optional
embedded IPv4 address in the last two slots, yielding 16 big-endian
bytes. -/

/-- Numeric value of a hexadecimal digit (either case). -/
def hexVal (c : Char) : Nat :=
  if c.toNat ≤ 57 then c.toNat - 48
  else if c.toNat ≤ 70 then c.toNat - 55
  else c.toNat - 87

/-- h16 = 1*4 HEXDIG, as a 16-bit value. -/
def h16Val (g : Str) : Option Nat :=
  if !g.isEmpty && g.length ≤ 4 && g.all isHexDigC then
    some (g.foldl (fun v c => 16 * v + hexVal c) 0)
  else none

/-- The two big-endian bytes of one h16 group. -/
def h16Bytes (g : Str) : Option (List Nat) :=
  (h16Val g).map (fun v => [v / 256, v % 256])

/-- Byte yield of a group list in which every group must be an h16. -/
def parseGroupsH16 : List Str → Option (List Nat)
  | [] => some []
  | g :: gs =>
    match h16Bytes g, parseGroupsH16 gs with
    | some b, some bs => some (b ++ bs)
    | _, _ => none

/-- Byte yield of a group list whose final group may instead be an
embedded IPv4 address (taking the last two h16 slots). -/
def parseGroupsLastV4 : List Str → Option (List Nat)
  | [] => some []
  | [g] => if g.contains '.' then ipv4Full g else h16Bytes g
  | g :: gs =>
    match h16Bytes g, parseGroupsLastV4 gs with
    | some b, some bs => some (b ++ bs)
    | _, _ => none

/-- Split at the first "::", when present. -/
def splitDoubleColon : Str → Option (Str × Str)
  | [] => none
  | ':' :: ':' :: rest => some ([], rest)
  | c :: rest => (splitDoubleColon rest).map (fun p => (c :: p.1, p.2))

/-- Whether the string still contains a "::". -/
def hasDoubleColon (l : Str) : Bool :=
  (splitDoubleColon l).isSome

/-- Modelled from the spec: the IPv6address matcher consuming the whole
input.  Without "::" there must be exactly 8 h16 slots; with one "::"
(a second one is rejected) the groups on both sides fill at most 7
slots and the gap is filled with zero bytes; an embedded IPv4 address
may occupy the last two slots.  Yields the 16 big-endian bytes. -/
def ipv6Full (l : Str) : Option (List Nat) :=
  match splitDoubleColon l with
  | none =>
    match parseGroupsLastV4 (splitOnChar ':' l) with
    | some bs => if bs.length = 16 then some bs else none
    | none => none
  | some (pre, post) =>
    if hasDoubleColon post then none
    else
      let preGs := if pre.isEmpty then [] else splitOnChar ':' pre
      let postGs := if post.isEmpty then [] else splitOnChar ':' post
      match parseGroupsH16 preGs, parseGroupsLastV4 postGs with
      | some b1, some b2 =>
        if b1.length + b2.length ≤ 14 then
          some (b1 ++ List.replicate (16 - (b1.length + b2.length)) 0 ++ b2)
        else none
      | _, _ => none

/-- The 64-bit big-endian value of 8 consecutive bytes, as computed by
the get_u64 helper of test/rfc/ipv6_address_bnf.cpp. -/
def getU64 (bs : List Nat) (off : Nat) : Nat :=
  (List.range 8).foldl (fun acc k => acc * 256 + bs.getD (off + k) 0) 0

theorem decOctet_le {g : Str} {v : Nat} (h : decOctet g = some v) : v ≤ 255 := by
  rw [decOctet.eq_def] at h
  split at h
  · next c =>
    split at h
    · next hd =>
      injection h with h
      subst h
      rw [isDigitC] at hd
      simp only [Bool.and_eq_true, decide_eq_true_eq] at hd
      rw [digitVal]
      omega
    · exact absurd h (by simp)
  · next c1 c2 =>
    split at h
    · next hd =>
      injection h with h
      subst h
      rw [isDigitC, isDigitC] at hd
      simp only [Bool.and_eq_true, decide_eq_true_eq] at hd
      rw [digitVal, digitVal]
      omega
    · exact absurd h (by simp)
  · next c1 c2 c3 =>
    split at h
    · next hd =>
      injection h with h
      subst h
      simp only [Bool.and_eq_true, decide_eq_true_eq] at hd
      exact hd.2
    · exact absurd h (by simp)
  · exact absurd h (by simp)

theorem ipv4Full_bytes {l : Str} {bs : List Nat} (h : ipv4Full l = some bs) :
    bs.length = 4 ∧ ∀ b ∈ bs, b ≤ 255 := by
  rw [ipv4Full.eq_def] at h
  split at h
  · split at h
    · next w x y z hw hx hy hz =>
      injection h with h
      subst h
      refine ⟨rfl, ?_⟩
      intro b hb
      simp only [List.mem_cons] at hb
      rcases hb with rfl | rfl | rfl | rfl | hb
      · exact decOctet_le hw
      · exact decOctet_le hx
      · exact decOctet_le hy
      · exact decOctet_le hz
      · simp at hb
    · exact absurd h (by simp)
  · exact absurd h (by simp)

theorem ipv6Full_length {l : Str} {bs : List Nat} (h : ipv6Full l = some bs) :
    bs.length = 16 := by
  rw [ipv6Full.eq_def] at h
  split at h
  · split at h
    · split at h
      · next hl =>
        injection h with h
        subst h
        exact hl
      · exact absurd h (by simp)
    · exact absurd h (by simp)
  · dsimp only at h
    split at h
    · exact absurd h (by simp)
    · split at h
      · split at h
        · next hle =>
          injection h with h
          subst h
          simp only [List.length_append, List.length_replicate]
          omega
        · exact absurd h (by simp)
      · exact absurd h (by simp)

/-! ## Setters (url.hpp)

Modelled from the spec: the .ipp files implementing the setters are
absent from the tree; the family below follows the documented contracts
in url.hpp (set_encoded_path at url.hpp:1255, the query and fragment
setters with their ABNF blocks) and the setter algorithm of spec
section 4.4: validate the replacement with the matcher for the
component, then splice the new stored bytes, or report an error and
leave the container unchanged (the rollback of spec section 7). -/

/-- The error kinds of spec section 7. -/
inductive Err
  | mismatch
  | needMore
  | invalid
  | badPercentEscape
  | badPort
  | badScheme
  | badHost
deriving DecidableEq, Repr

/-- One invocation of any setter declared in url.hpp: the whole-URL and
origin setters, the scheme setter, the authority setter, the userinfo,
user, password, host and port families (raw, encoded and part forms,
and both set_port overloads), the path setter, and the query and
fragment families. -/
inductive SetterCall
  | setEncodedUrl (s : Str)
  | setEncodedOrigin (s : Str)
  | setScheme (s : Str)
  | setEncodedAuthority (s : Str)
  | setEncodedUserinfo (s : Str)
  | setUserinfoPart (s : Str)
  | setUser (s : Str)
  | setEncodedUser (s : Str)
  | setPassword (s : Str)
  | setEncodedPassword (s : Str)
  | setPasswordPart (s : Str)
  | setHost (s : Str)
  | setEncodedHost (s : Str)
  | setPortNum (n : Nat)
  | setPortStr (s : Str)
  | setPortPart (s : Str)
  | setEncodedPath (s : Str)
  | setQueryRaw (s : Str)
  | setEncodedQuery (s : Str)
  | setQueryPart (s : Str)
  | setFragmentRaw (s : Str)
  | setEncodedFragment (s : Str)
  | setFragmentPart (s : Str)

/-- url::set_encoded_path: the required path style depends on whether an
authority and a scheme are present; on failure the state is unchanged. -/
def setEncodedPath (st : UrlState) (s : Str) : UrlState × Option Err :=
  if pathOK (!st.scheme_part.isEmpty) (!st.user_part.isEmpty) s then
    ({ st with path_part := s }, none)
  else (st, some Err.invalid)

/-- url::set_encoded_query: an empty string clears the query including
the "?", else the string must match the query grammar and is stored
with a leading "?". -/
def setEncodedQuery (st : UrlState) (s : Str) : UrlState × Option Err :=
  if s.isEmpty then ({ st with query_part := [] }, none)
  else if pctOK isQFChar s then ({ st with query_part := '?' :: s }, none)
  else (st, some Err.invalid)

/-- url::set_query_part: an empty string clears the query, else the
string must begin with "?" and match query-part. -/
def setQueryPart (st : UrlState) (s : Str) : UrlState × Option Err :=
  if s.isEmpty then ({ st with query_part := [] }, none)
  else if s.head? = some '?' && pctOK isQFChar (s.drop 1) then
    ({ st with query_part := s }, none)
  else (st, some Err.invalid)

/-- url::set_encoded_fragment: an empty string clears the fragment
including the "#", else the string must match the fragment grammar and
is stored with a leading "#". -/
def setEncodedFragment (st : UrlState) (s : Str) : UrlState × Option Err :=
  if s.isEmpty then ({ st with frag_part := [] }, none)
  else if pctOK isQFChar s then ({ st with frag_part := '#' :: s }, none)
  else (st, some Err.invalid)

/-- url::set_fragment_part: an empty string clears the fragment, else
the string must begin with "#" and match fragment-part. -/
def setFragmentPart (st : UrlState) (s : Str) : UrlState × Option Err :=
  if s.isEmpty then ({ st with frag_part := [] }, none)
  else if s.head? = some '#' && pctOK isQFChar (s.drop 1) then
    ({ st with frag_part := s }, none)
  else (st, some Err.invalid)

/-- An upper-case hexadecimal digit (spec section 4.1: outputs use
upper-case hex). -/
def hexDigUpper (n : Nat) : Char :=
  if n < 10 then Char.ofNat (48 + n) else Char.ofNat (55 + n)

/-- The percent triplet of one byte: "%" and two upper-case hex digits. -/
def pctEncodeChar (c : Char) : Str :=
  ['%', hexDigUpper ((c.toNat % 256) / 16), hexDigUpper (c.toNat % 16)]

/-- The percent-encoder of the raw-input setters: bytes outside the
component alphabet are replaced by their percent triplets. -/
def pctEncode (A : Char → Bool) : Str → Str
  | [] => []
  | c :: rest => (if A c then [c] else pctEncodeChar c) ++ pctEncode A rest

/-- url::set_query (raw input): an empty string clears the query, any
other input is percent-encoded (never fails) and stored with "?". -/
def setQueryRaw (st : UrlState) (s : Str) : UrlState × Option Err :=
  if s.isEmpty then ({ st with query_part := [] }, none)
  else ({ st with query_part := '?' :: pctEncode isQFChar s }, none)

/-- url::set_fragment (raw input): an empty string clears the fragment,
any other input is percent-encoded (never fails) and stored with "#". -/
def setFragmentRaw (st : UrlState) (s : Str) : UrlState × Option Err :=
  if s.isEmpty then ({ st with frag_part := [] }, none)
  else ({ st with frag_part := '#' :: pctEncode isQFChar s }, none)

/-- The scheme string grammar: ALPHA *( ALPHA / DIGIT / "+" / "-" / "." ). -/
def schemeStrOK : Str → Bool
  | [] => false
  | c :: rest => isAlphaC c && rest.all isSchemeChar

/-- url::set_scheme: an empty string removes the scheme and its colon
(refused when the remaining reference would no longer parse as written,
per the invariants of spec section 3); otherwise the string must match
the scheme grammar and is stored with a trailing colon. -/
def setScheme (st : UrlState) (s : Str) : UrlState × Option Err :=
  if s.isEmpty then
    if pathOK false (!st.user_part.isEmpty) st.path_part then
      ({ st with scheme_part := [] }, none)
    else (st, some Err.invalid)
  else if schemeStrOK s then ({ st with scheme_part := s ++ [':'] }, none)
  else (st, some Err.badScheme)

/-- url::set_encoded_url: parse the whole string as a URI-reference and
replace the state; a parse failure leaves the state unchanged. -/
def setEncodedUrl (st : UrlState) (s : Str) : UrlState × Option Err :=
  match parseUrl s with
  | some st2 => (st2, none)
  | none => (st, some Err.invalid)

/-- The commit step of the origin setter on an already-split candidate
origin c: c must have no path, query or fragment, its scheme and
authority components must validate, and the retained path must fit the
new context. -/
def setOriginCore (st : UrlState) (c : UrlState) : UrlState × Option Err :=
  if c.path_part.isEmpty && c.query_part.isEmpty && c.frag_part.isEmpty &&
      schemePartOK c.scheme_part &&
      authOK c.user_part c.pass_part c.host_part c.port_part &&
      pathOK (!c.scheme_part.isEmpty) (!c.user_part.isEmpty) st.path_part then
    ({ st with
        scheme_part := c.scheme_part
        user_part := c.user_part
        pass_part := c.pass_part
        host_part := c.host_part
        port_part := c.port_part }, none)
  else (st, some Err.invalid)

/-- url::set_encoded_origin: the string is split as scheme plus
authority with nothing left over; the path, query and fragment are
kept, re-checking the path style of the new context. -/
def setEncodedOrigin (st : UrlState) (s : Str) : UrlState × Option Err :=
  setOriginCore st (splitUrl s)

/-- The commit step shared by every authority setter (spec section 4.4
steps 1-3): the proposed user, pass, host and port stored bytes are
re-validated with the authority component matchers, and the path style
is re-checked against the new authority presence (the invariants of
spec section 3 and the round-trip guarantee of section 8 require the
serialized reference to remain parseable, so an edit that would break
it is refused); then the bytes are spliced in. -/
def setAuthorityComponents (st : UrlState) (us pa ho po : Str) :
    UrlState × Option Err :=
  if authOK us pa ho po &&
      pathOK (!st.scheme_part.isEmpty) (!us.isEmpty) st.path_part then
    ({ st with
        user_part := us
        pass_part := pa
        host_part := ho
        port_part := po }, none)
  else (st, some Err.invalid)

/-- The stored user bytes when an authority must exist afterwards. -/
def withAuthoritySlashes (us : Str) : Str :=
  if us.isEmpty then ['/', '/'] else us

/-- url::set_encoded_authority: the string is decomposed by the
authority scan and committed with the component matchers. -/
def setEncodedAuthority (st : UrlState) (s : Str) : UrlState × Option Err :=
  let a4 := parseAuthority s
  setAuthorityComponents st a4.1 a4.2.1 a4.2.2.1 a4.2.2.2

/-- url::set_encoded_userinfo: empty clears the userinfo (the "//" of
an existing authority stays); otherwise the part before the first ":"
is the user and the rest the password, stored with the trailing "@". -/
def setEncodedUserinfo (st : UrlState) (s : Str) : UrlState × Option Err :=
  if s.isEmpty then
    setAuthorityComponents st
      (if st.user_part.isEmpty then [] else ['/', '/']) [] st.host_part
      st.port_part
  else
    setAuthorityComponents st
      ('/' :: '/' :: s.takeWhile (fun a => a ≠ ':'))
      ((s.dropWhile (fun a => a ≠ ':')) ++ ['@'])
      st.host_part st.port_part

/-- url::set_userinfo_part: as set_encoded_userinfo but the non-empty
form must already carry its trailing "@". -/
def setUserinfoPart (st : UrlState) (s : Str) : UrlState × Option Err :=
  if s.isEmpty then setEncodedUserinfo st []
  else if s.getLast? = some '@' then setEncodedUserinfo st s.dropLast
  else (st, some Err.invalid)

/-- url::set_encoded_user: empty clears the user keeping the authority;
non-empty sets the user, prepending "//" when no authority existed and
materializing the "@" when no password bytes were stored. -/
def setEncodedUser (st : UrlState) (s : Str) : UrlState × Option Err :=
  if s.isEmpty then
    setAuthorityComponents st
      (if st.user_part.isEmpty then [] else ['/', '/']) st.pass_part
      st.host_part st.port_part
  else
    setAuthorityComponents st ('/' :: '/' :: s)
      (if st.pass_part.isEmpty then ['@'] else st.pass_part)
      st.host_part st.port_part

/-- url::set_user: raw input, percent-encoded with the user alphabet. -/
def setUser (st : UrlState) (s : Str) : UrlState × Option Err :=
  setEncodedUser st (pctEncode isUserChar s)

/-- url::set_encoded_password: empty clears the password and its colon
(the "@" stays exactly when a user remains); non-empty stores
":" password "@", adding the authority when none existed. -/
def setEncodedPassword (st : UrlState) (s : Str) : UrlState × Option Err :=
  if s.isEmpty then
    setAuthorityComponents st st.user_part
      (if (st.user_part.drop 2).isEmpty then [] else ['@'])
      st.host_part st.port_part
  else
    setAuthorityComponents st (withAuthoritySlashes st.user_part)
      (':' :: (s ++ ['@'])) st.host_part st.port_part

/-- url::set_password: raw input, percent-encoded with the password
alphabet. -/
def setPassword (st : UrlState) (s : Str) : UrlState × Option Err :=
  setEncodedPassword st (pctEncode isPassChar s)

/-- url::set_password_part: empty clears as set_encoded_password; a
non-empty string must begin with ":" and is stored with the "@". -/
def setPasswordPart (st : UrlState) (s : Str) : UrlState × Option Err :=
  if s.isEmpty then setEncodedPassword st []
  else if s.head? = some ':' then
    setAuthorityComponents st (withAuthoritySlashes st.user_part)
      (s ++ ['@']) st.host_part st.port_part
  else (st, some Err.invalid)

/-- IPvFuture = "v" 1*HEXDIG "." 1*( unreserved / sub-delims / ":" ).
Modelled from the spec (rfc matcher implementation absent). -/
def ipvFutureOK (l : Str) : Bool :=
  if l.head? = some 'v' || l.head? = some 'V' then
    let rest := l.drop 1
    let hx := rest.takeWhile isHexDigC
    let rest2 := rest.dropWhile isHexDigC
    !hx.isEmpty &&
      (if rest2.head? = some '.' then
        !(rest2.drop 1).isEmpty &&
          (rest2.drop 1).all (fun c => isUnreserved c || isSubDelim c || c = ':')
      else false)
  else false

/-- The host matcher of spec section 4.3: a bracketed IPv6 or IPvFuture
literal, a dotted IPv4 quad, or a reg-name. -/
def hostMatcherOK (s : Str) : Bool :=
  if s.head? = some '[' then
    s.getLast? = some ']' &&
      ((ipv6Full ((s.drop 1).dropLast)).isSome || ipvFutureOK ((s.drop 1).dropLast))
  else (ipv4Full s).isSome || pctOK isRegNameChar s

/-- url::set_encoded_host: empty clears the host, removing the
authority when nothing else remains in it; non-empty input must match
the host grammar and is stored as given, adding the authority when none
existed. -/
def setEncodedHost (st : UrlState) (s : Str) : UrlState × Option Err :=
  if s.isEmpty then
    if !(st.user_part.drop 2).isEmpty || !st.pass_part.isEmpty ||
        !st.port_part.isEmpty then
      setAuthorityComponents st st.user_part st.pass_part [] st.port_part
    else setAuthorityComponents st [] [] [] []
  else if hostMatcherOK s then
    setAuthorityComponents st (withAuthoritySlashes st.user_part) st.pass_part
      s st.port_part
  else (st, some Err.badHost)

/-- url::set_host (raw input): try IPv4, then IPv6 and IPvFuture (each
stored bracketed), else a reg-name with percent-encoding applied. -/
def setHost (st : UrlState) (s : Str) : UrlState × Option Err :=
  if s.isEmpty then setEncodedHost st []
  else if (ipv4Full s).isSome then setEncodedHost st s
  else if (ipv6Full s).isSome then setEncodedHost st ('[' :: (s ++ [']']))
  else if ipvFutureOK s then setEncodedHost st ('[' :: (s ++ [']']))
  else setEncodedHost st (pctEncode isRegNameChar s)

/-- The decimal digits of a number, most significant first. -/
def natToDigits (n : Nat) : Str :=
  if n < 10 then [Char.ofNat (48 + n)]
  else natToDigits (n / 10) ++ [Char.ofNat (48 + n % 10)]
decreasing_by exact Nat.div_lt_self (by omega) (by omega)

/-- url::set_port(unsigned): the port is set to the decimal digits of
the number, adding the authority when none existed. -/
def setPortNum (st : UrlState) (n : Nat) : UrlState × Option Err :=
  setAuthorityComponents st (withAuthoritySlashes st.user_part) st.pass_part
    st.host_part (':' :: natToDigits n)

/-- url::set_port(string): empty clears the port and its colon,
removing the authority when nothing else remains in it; a non-empty
string must be all digits (port = *DIGIT). -/
def setPortStr (st : UrlState) (s : Str) : UrlState × Option Err :=
  if s.isEmpty then
    if !(st.user_part.drop 2).isEmpty || !st.pass_part.isEmpty ||
        !st.host_part.isEmpty then
      setAuthorityComponents st st.user_part st.pass_part st.host_part []
    else setAuthorityComponents st [] [] [] []
  else if s.all isDigitC then
    setAuthorityComponents st (withAuthoritySlashes st.user_part) st.pass_part
      st.host_part (':' :: s)
  else (st, some Err.badPort)

/-- url::set_port_part: as set_port(string) but a non-empty string must
carry its leading colon. -/
def setPortPart (st : UrlState) (s : Str) : UrlState × Option Err :=
  if s.isEmpty then setPortStr st []
  else if s.head? = some ':' && (s.drop 1).all isDigitC then
    setAuthorityComponents st (withAuthoritySlashes st.user_part) st.pass_part
      st.host_part s
  else (st, some Err.invalid)

/-- Dispatch of one setter invocation. -/
def applySetter (st : UrlState) (c : SetterCall) : UrlState × Option Err :=
  match c with
  | .setEncodedUrl s => setEncodedUrl st s
  | .setEncodedOrigin s => setEncodedOrigin st s
  | .setScheme s => setScheme st s
  | .setEncodedAuthority s => setEncodedAuthority st s
  | .setEncodedUserinfo s => setEncodedUserinfo st s
  | .setUserinfoPart s => setUserinfoPart st s
  | .setUser s => setUser st s
  | .setEncodedUser s => setEncodedUser st s
  | .setPassword s => setPassword st s
  | .setEncodedPassword s => setEncodedPassword st s
  | .setPasswordPart s => setPasswordPart st s
  | .setHost s => setHost st s
  | .setEncodedHost s => setEncodedHost st s
  | .setPortNum n => setPortNum st n
  | .setPortStr s => setPortStr st s
  | .setPortPart s => setPortPart st s
  | .setEncodedPath s => setEncodedPath st s
  | .setQueryRaw s => setQueryRaw st s
  | .setEncodedQuery s => setEncodedQuery st s
  | .setQueryPart s => setQueryPart st s
  | .setFragmentRaw s => setFragmentRaw st s
  | .setEncodedFragment s => setEncodedFragment st s
  | .setFragmentPart s => setFragmentPart st s

theorem validState_decompose {st : UrlState} (h : validState st = true) :
    schemePartOK st.scheme_part = true ∧
      authOK st.user_part st.pass_part st.host_part st.port_part = true ∧
      pathOK (!st.scheme_part.isEmpty) (!st.user_part.isEmpty) st.path_part = true ∧
      queryPartOK st.query_part = true ∧ fragPartOK st.frag_part = true := by
  rw [validState] at h
  simp only [Bool.and_eq_true] at h
  exact ⟨h.1.1.1.1, h.1.1.1.2, h.1.1.2, h.1.2, h.2⟩

theorem validState_recompose {st : UrlState}
    (h1 : schemePartOK st.scheme_part = true)
    (h2 : authOK st.user_part st.pass_part st.host_part st.port_part = true)
    (h3 : pathOK (!st.scheme_part.isEmpty) (!st.user_part.isEmpty) st.path_part = true)
    (h4 : queryPartOK st.query_part = true)
    (h5 : fragPartOK st.frag_part = true) : validState st = true := by
  rw [validState]
  simp only [Bool.and_eq_true]
  exact ⟨⟨⟨⟨h1, h2⟩, h3⟩, h4⟩, h5⟩

/-- The outcome contract of one setter call on one state: failure
returns the unchanged container, success yields a state satisfying the
data-model invariant. -/
def SetterOutcomeOK (st : UrlState) (r : UrlState × Option Err) : Prop :=
  (r.2.isSome = true → r.1 = st) ∧ (r.2 = none → validState r.1 = true)

theorem outcome_err (st : UrlState) (e : Err) :
    SetterOutcomeOK st (st, some e) :=
  ⟨fun _ => rfl, fun h0 => by simp at h0⟩

theorem outcome_commit {st st2 : UrlState} (h : validState st2 = true) :
    SetterOutcomeOK st (st2, none) :=
  ⟨fun h0 => by simp at h0, fun _ => h⟩

theorem isHexDigC_hexDigUpper {n : Nat} (h : n < 16) :
    isHexDigC (hexDigUpper n) = true := by
  interval_cases n <;> decide

theorem pctOK_pctEncode (A : Char → Bool) (hA : A '%' = false) (s : Str) :
    pctOK A (pctEncode A s) = true := by
  induction s with
  | nil => rfl
  | cons c rest ih =>
    rw [pctEncode]
    by_cases hc : A c = true
    · have hcne : c ≠ '%' := by
        rintro rfl
        rw [hA] at hc
        exact Bool.false_ne_true hc
      rw [if_pos hc, List.singleton_append, pctOK_cons_of_ne A hcne, hc,
        Bool.true_and]
      exact ih
    · rw [if_neg hc, pctEncodeChar]
      have hq : (c.toNat % 256) / 16 < 16 := by omega
      have hr : c.toNat % 16 < 16 := by omega
      show pctOK A ('%' :: hexDigUpper ((c.toNat % 256) / 16) ::
        hexDigUpper (c.toNat % 16) :: pctEncode A rest) = true
      rw [pctOK_pct, isHexDigC_hexDigUpper hq, isHexDigC_hexDigUpper hr, ih]
      rfl

/-- Adding a scheme can only widen the set of admissible paths
(path-noscheme and path-absolute are also valid rootless or absolute
paths in a scheme context). -/
theorem pathOK_mono {hs ha : Bool} {p : Str} (h : pathOK hs ha p = true) :
    pathOK true ha p = true := by
  cases hs
  · rw [pathOK] at h ⊢
    simp only [Bool.and_eq_true] at h ⊢
    refine ⟨h.1, ?_⟩
    have h2 := h.2
    cases ha
    · rw [if_neg (by simp)] at h2 ⊢
      by_cases he : p.isEmpty = true
      · rw [if_pos he]
      · rw [if_neg he] at h2 ⊢
        by_cases hh : p.head? = some '/'
        · rw [if_pos hh] at h2 ⊢
          exact h2
        · rw [if_neg hh] at h2 ⊢
          simp
    · rw [if_pos rfl] at h2 ⊢
      exact h2
  · exact h

theorem parseUrl_valid {s : Str} {st : UrlState} (h : parseUrl s = some st) :
    validState st = true := by
  rw [parseUrl] at h
  by_cases hc : validState (splitUrl s) = true
  · rw [if_pos hc] at h
    injection h with h
    rwa [h] at hc
  · rw [if_neg hc] at h
    exact absurd h (by simp)

theorem schemePartOK_build {s : Str} (h : schemeStrOK s = true) :
    schemePartOK (s ++ [':']) = true := by
  match s, h with
  | [], h => exact absurd h (by simp [schemeStrOK])
  | c :: rest, h =>
    rw [schemeStrOK] at h
    simp only [Bool.and_eq_true] at h
    show schemePartOK (c :: (rest ++ [':'])) = true
    rw [schemePartOK]
    simp only [Bool.and_eq_true, decide_eq_true_eq]
    refine ⟨⟨⟨h.1, ?_⟩, ?_⟩, ?_⟩
    · rw [List.dropLast_concat]
      exact h.2
    · show ((c :: rest) ++ [':']).getLast? = some ':'
      exact List.getLast?_concat _
    · simp

theorem setAuthorityComponents_safe (st : UrlState) (us pa ho po : Str)
    (hv : validState st = true) :
    SetterOutcomeOK st (setAuthorityComponents st us pa ho po) := by
  obtain ⟨h1, _, _, h4, h5⟩ := validState_decompose hv
  rw [setAuthorityComponents]
  by_cases hc : (authOK us pa ho po &&
      pathOK (!st.scheme_part.isEmpty) (!us.isEmpty) st.path_part) = true
  · rw [if_pos hc]
    simp only [Bool.and_eq_true] at hc
    exact outcome_commit (validState_recompose h1 hc.1 hc.2 h4 h5)
  · rw [if_neg hc]
    exact outcome_err st _

theorem setScheme_safe (st : UrlState) (s : Str) (hv : validState st = true) :
    SetterOutcomeOK st (setScheme st s) := by
  obtain ⟨h1, h2, h3, h4, h5⟩ := validState_decompose hv
  rw [setScheme]
  by_cases he : s.isEmpty = true
  · rw [if_pos he]
    by_cases hp : pathOK false (!st.user_part.isEmpty) st.path_part = true
    · rw [if_pos hp]
      exact outcome_commit (validState_recompose rfl h2 hp h4 h5)
    · rw [if_neg hp]
      exact outcome_err st _
  · rw [if_neg he]
    by_cases hs2 : schemeStrOK s = true
    · rw [if_pos hs2]
      refine outcome_commit (validState_recompose (schemePartOK_build hs2) h2 ?_ h4 h5)
      show pathOK (!(s ++ [':']).isEmpty) (!st.user_part.isEmpty) st.path_part = true
      have hne : (s ++ [':']).isEmpty = false := by simp
      rw [hne]
      exact pathOK_mono h3
    · rw [if_neg hs2]
      exact outcome_err st _

theorem setEncodedUrl_safe (st : UrlState) (s : Str) :
    SetterOutcomeOK st (setEncodedUrl st s) := by
  rw [setEncodedUrl]
  rcases hp : parseUrl s with _ | st2
  · simp only [hp]
    exact outcome_err st _
  · simp only [hp]
    exact outcome_commit (parseUrl_valid hp)

theorem setOriginCore_safe (st c : UrlState) (hv : validState st = true) :
    SetterOutcomeOK st (setOriginCore st c) := by
  obtain ⟨_, _, _, h4, h5⟩ := validState_decompose hv
  rw [setOriginCore]
  by_cases hc : (c.path_part.isEmpty && c.query_part.isEmpty &&
      c.frag_part.isEmpty && schemePartOK c.scheme_part &&
      authOK c.user_part c.pass_part c.host_part c.port_part &&
      pathOK (!c.scheme_part.isEmpty) (!c.user_part.isEmpty) st.path_part) = true
  · rw [if_pos hc]
    simp only [Bool.and_eq_true] at hc
    obtain ⟨⟨⟨⟨⟨_, _⟩, _⟩, hsc⟩, hau⟩, hpth⟩ := hc
    exact outcome_commit (validState_recompose hsc hau hpth h4 h5)
  · rw [if_neg hc]
    exact outcome_err st _

theorem setEncodedOrigin_safe (st : UrlState) (s : Str)
    (hv : validState st = true) : SetterOutcomeOK st (setEncodedOrigin st s) := by
  rw [setEncodedOrigin]
  exact setOriginCore_safe st (splitUrl s) hv

theorem setEncodedAuthority_safe (st : UrlState) (s : Str)
    (hv : validState st = true) :
    SetterOutcomeOK st (setEncodedAuthority st s) := by
  rw [setEncodedAuthority]
  exact setAuthorityComponents_safe st _ _ _ _ hv

theorem setEncodedUserinfo_safe (st : UrlState) (s : Str)
    (hv : validState st = true) :
    SetterOutcomeOK st (setEncodedUserinfo st s) := by
  rw [setEncodedUserinfo]
  by_cases he : s.isEmpty = true
  · rw [if_pos he]
    exact setAuthorityComponents_safe st _ _ _ _ hv
  · rw [if_neg he]
    exact setAuthorityComponents_safe st _ _ _ _ hv

theorem setUserinfoPart_safe (st : UrlState) (s : Str)
    (hv : validState st = true) : SetterOutcomeOK st (setUserinfoPart st s) := by
  rw [setUserinfoPart]
  by_cases he : s.isEmpty = true
  · rw [if_pos he]
    exact setEncodedUserinfo_safe st [] hv
  · rw [if_neg he]
    by_cases hl : s.getLast? = some '@'
    · rw [if_pos hl]
      exact setEncodedUserinfo_safe st s.dropLast hv
    · rw [if_neg hl]
      exact outcome_err st _

theorem setEncodedUser_safe (st : UrlState) (s : Str)
    (hv : validState st = true) : SetterOutcomeOK st (setEncodedUser st s) := by
  rw [setEncodedUser]
  by_cases he : s.isEmpty = true
  · rw [if_pos he]
    exact setAuthorityComponents_safe st _ _ _ _ hv
  · rw [if_neg he]
    exact setAuthorityComponents_safe st _ _ _ _ hv

theorem setUser_safe (st : UrlState) (s : Str) (hv : validState st = true) :
    SetterOutcomeOK st (setUser st s) := by
  rw [setUser]
  exact setEncodedUser_safe st _ hv

theorem setEncodedPassword_safe (st : UrlState) (s : Str)
    (hv : validState st = true) :
    SetterOutcomeOK st (setEncodedPassword st s) := by
  rw [setEncodedPassword]
  by_cases he : s.isEmpty = true
  · rw [if_pos he]
    exact setAuthorityComponents_safe st _ _ _ _ hv
  · rw [if_neg he]
    exact setAuthorityComponents_safe st _ _ _ _ hv

theorem setPassword_safe (st : UrlState) (s : Str) (hv : validState st = true) :
    SetterOutcomeOK st (setPassword st s) := by
  rw [setPassword]
  exact setEncodedPassword_safe st _ hv

theorem setPasswordPart_safe (st : UrlState) (s : Str)
    (hv : validState st = true) : SetterOutcomeOK st (setPasswordPart st s) := by
  rw [setPasswordPart]
  by_cases he : s.isEmpty = true
  · rw [if_pos he]
    exact setEncodedPassword_safe st [] hv
  · rw [if_neg he]
    by_cases hh : s.head? = some ':'
    · rw [if_pos hh]
      exact setAuthorityComponents_safe st _ _ _ _ hv
    · rw [if_neg hh]
      exact outcome_err st _

theorem setEncodedHost_safe (st : UrlState) (s : Str)
    (hv : validState st = true) : SetterOutcomeOK st (setEncodedHost st s) := by
  rw [setEncodedHost]
  by_cases he : s.isEmpty = true
  · rw [if_pos he]
    by_cases hr : (!(st.user_part.drop 2).isEmpty || !st.pass_part.isEmpty ||
        !st.port_part.isEmpty) = true
    · rw [if_pos hr]
      exact setAuthorityComponents_safe st _ _ _ _ hv
    · rw [if_neg hr]
      exact setAuthorityComponents_safe st _ _ _ _ hv
  · rw [if_neg he]
    by_cases hm : hostMatcherOK s = true
    · rw [if_pos hm]
      exact setAuthorityComponents_safe st _ _ _ _ hv
    · rw [if_neg hm]
      exact outcome_err st _

theorem setHost_safe (st : UrlState) (s : Str) (hv : validState st = true) :
    SetterOutcomeOK st (setHost st s) := by
  rw [setHost]
  by_cases he : s.isEmpty = true
  · rw [if_pos he]
    exact setEncodedHost_safe st [] hv
  · rw [if_neg he]
    by_cases h4a : (ipv4Full s).isSome = true
    · rw [if_pos h4a]
      exact setEncodedHost_safe st s hv
    · rw [if_neg h4a]
      by_cases h6 : (ipv6Full s).isSome = true
      · rw [if_pos h6]
        exact setEncodedHost_safe st _ hv
      · rw [if_neg h6]
        by_cases hf : ipvFutureOK s = true
        · rw [if_pos hf]
          exact setEncodedHost_safe st _ hv
        · rw [if_neg hf]
          exact setEncodedHost_safe st _ hv

theorem setPortNum_safe (st : UrlState) (n : Nat) (hv : validState st = true) :
    SetterOutcomeOK st (setPortNum st n) := by
  rw [setPortNum]
  exact setAuthorityComponents_safe st _ _ _ _ hv

theorem setPortStr_safe (st : UrlState) (s : Str) (hv : validState st = true) :
    SetterOutcomeOK st (setPortStr st s) := by
  rw [setPortStr]
  by_cases he : s.isEmpty = true
  · rw [if_pos he]
    by_cases hr : (!(st.user_part.drop 2).isEmpty || !st.pass_part.isEmpty ||
        !st.host_part.isEmpty) = true
    · rw [if_pos hr]
      exact setAuthorityComponents_safe st _ _ _ _ hv
    · rw [if_neg hr]
      exact setAuthorityComponents_safe st _ _ _ _ hv
  · rw [if_neg he]
    by_cases hd : s.all isDigitC = true
    · rw [if_pos hd]
      exact setAuthorityComponents_safe st _ _ _ _ hv
    · rw [if_neg hd]
      exact outcome_err st _

theorem setPortPart_safe (st : UrlState) (s : Str) (hv : validState st = true) :
    SetterOutcomeOK st (setPortPart st s) := by
  rw [setPortPart]
  by_cases he : s.isEmpty = true
  · rw [if_pos he]
    exact setPortStr_safe st [] hv
  · rw [if_neg he]
    by_cases hc : (s.head? = some ':' && (s.drop 1).all isDigitC) = true
    · rw [if_pos hc]
      exact setAuthorityComponents_safe st _ _ _ _ hv
    · rw [if_neg hc]
      exact outcome_err st _

theorem setEncodedPath_safe (st : UrlState) (s : Str)
    (hv : validState st = true) : SetterOutcomeOK st (setEncodedPath st s) := by
  obtain ⟨h1, h2, _, h4, h5⟩ := validState_decompose hv
  rw [setEncodedPath]
  by_cases hc : pathOK (!st.scheme_part.isEmpty) (!st.user_part.isEmpty) s = true
  · rw [if_pos hc]
    exact outcome_commit (validState_recompose h1 h2 hc h4 h5)
  · rw [if_neg hc]
    exact outcome_err st _

theorem setQueryRaw_safe (st : UrlState) (s : Str) (hv : validState st = true) :
    SetterOutcomeOK st (setQueryRaw st s) := by
  obtain ⟨h1, h2, h3, _, h5⟩ := validState_decompose hv
  rw [setQueryRaw]
  by_cases he : s.isEmpty = true
  · rw [if_pos he]
    exact outcome_commit (validState_recompose h1 h2 h3 (by rw [queryPartOK]; simp) h5)
  · rw [if_neg he]
    refine outcome_commit (validState_recompose h1 h2 h3 ?_ h5)
    rw [queryPartOK]
    simp only [Bool.or_eq_true, Bool.and_eq_true, decide_eq_true_eq]
    exact Or.inr ⟨rfl, pctOK_pctEncode isQFChar (by decide) s⟩

theorem setEncodedQuery_safe (st : UrlState) (s : Str)
    (hv : validState st = true) : SetterOutcomeOK st (setEncodedQuery st s) := by
  obtain ⟨h1, h2, h3, _, h5⟩ := validState_decompose hv
  rw [setEncodedQuery]
  by_cases he : s.isEmpty = true
  · rw [if_pos he]
    exact outcome_commit (validState_recompose h1 h2 h3 (by rw [queryPartOK]; simp) h5)
  · rw [if_neg he]
    by_cases hc : pctOK isQFChar s = true
    · rw [if_pos hc]
      refine outcome_commit (validState_recompose h1 h2 h3 ?_ h5)
      rw [queryPartOK]
      simp [hc]
    · rw [if_neg hc]
      exact outcome_err st _

theorem setQueryPart_safe (st : UrlState) (s : Str)
    (hv : validState st = true) : SetterOutcomeOK st (setQueryPart st s) := by
  obtain ⟨h1, h2, h3, _, h5⟩ := validState_decompose hv
  rw [setQueryPart]
  by_cases he : s.isEmpty = true
  · rw [if_pos he]
    exact outcome_commit (validState_recompose h1 h2 h3 (by rw [queryPartOK]; simp) h5)
  · rw [if_neg he]
    by_cases hc : (s.head? = some '?' && pctOK isQFChar (s.drop 1)) = true
    · rw [if_pos hc]
      refine outcome_commit (validState_recompose h1 h2 h3 ?_ h5)
      rw [queryPartOK]
      simp only [Bool.and_eq_true, decide_eq_true_eq] at hc
      simp only [Bool.or_eq_true, Bool.and_eq_true, decide_eq_true_eq]
      exact Or.inr ⟨hc.1, hc.2⟩
    · rw [if_neg hc]
      exact outcome_err st _

theorem setFragmentRaw_safe (st : UrlState) (s : Str)
    (hv : validState st = true) : SetterOutcomeOK st (setFragmentRaw st s) := by
  obtain ⟨h1, h2, h3, h4, _⟩ := validState_decompose hv
  rw [setFragmentRaw]
  by_cases he : s.isEmpty = true
  · rw [if_pos he]
    exact outcome_commit (validState_recompose h1 h2 h3 h4 (by rw [fragPartOK]; simp))
  · rw [if_neg he]
    refine outcome_commit (validState_recompose h1 h2 h3 h4 ?_)
    rw [fragPartOK]
    simp only [Bool.or_eq_true, Bool.and_eq_true, decide_eq_true_eq]
    exact Or.inr ⟨rfl, pctOK_pctEncode isQFChar (by decide) s⟩

theorem setEncodedFragment_safe (st : UrlState) (s : Str)
    (hv : validState st = true) :
    SetterOutcomeOK st (setEncodedFragment st s) := by
  obtain ⟨h1, h2, h3, h4, _⟩ := validState_decompose hv
  rw [setEncodedFragment]
  by_cases he : s.isEmpty = true
  · rw [if_pos he]
    exact outcome_commit (validState_recompose h1 h2 h3 h4 (by rw [fragPartOK]; simp))
  · rw [if_neg he]
    by_cases hc : pctOK isQFChar s = true
    · rw [if_pos hc]
      refine outcome_commit (validState_recompose h1 h2 h3 h4 ?_)
      rw [fragPartOK]
      simp [hc]
    · rw [if_neg hc]
      exact outcome_err st _

theorem setFragmentPart_safe (st : UrlState) (s : Str)
    (hv : validState st = true) : SetterOutcomeOK st (setFragmentPart st s) := by
  obtain ⟨h1, h2, h3, h4, _⟩ := validState_decompose hv
  rw [setFragmentPart]
  by_cases he : s.isEmpty = true
  · rw [if_pos he]
    exact outcome_commit (validState_recompose h1 h2 h3 h4 (by rw [fragPartOK]; simp))
  · rw [if_neg he]
    by_cases hc : (s.head? = some '#' && pctOK isQFChar (s.drop 1)) = true
    · rw [if_pos hc]
      refine outcome_commit (validState_recompose h1 h2 h3 h4 ?_)
      rw [fragPartOK]
      simp only [Bool.and_eq_true, decide_eq_true_eq] at hc
      simp only [Bool.or_eq_true, Bool.and_eq_true, decide_eq_true_eq]
      exact Or.inr ⟨hc.1, hc.2⟩
    · rw [if_neg hc]
      exact outcome_err st _

/-- On failure every setter declared in url.hpp returns the container
unchanged; on success the data-model invariant still holds. -/
theorem applySetter_safe (st : UrlState) (c : SetterCall)
    (hv : validState st = true) : SetterOutcomeOK st (applySetter st c) := by
  cases c with
  | setEncodedUrl s => exact setEncodedUrl_safe st s
  | setEncodedOrigin s => exact setEncodedOrigin_safe st s hv
  | setScheme s => exact setScheme_safe st s hv
  | setEncodedAuthority s => exact setEncodedAuthority_safe st s hv
  | setEncodedUserinfo s => exact setEncodedUserinfo_safe st s hv
  | setUserinfoPart s => exact setUserinfoPart_safe st s hv
  | setUser s => exact setUser_safe st s hv
  | setEncodedUser s => exact setEncodedUser_safe st s hv
  | setPassword s => exact setPassword_safe st s hv
  | setEncodedPassword s => exact setEncodedPassword_safe st s hv
  | setPasswordPart s => exact setPasswordPart_safe st s hv
  | setHost s => exact setHost_safe st s hv
  | setEncodedHost s => exact setEncodedHost_safe st s hv
  | setPortNum n => exact setPortNum_safe st n hv
  | setPortStr s => exact setPortStr_safe st s hv
  | setPortPart s => exact setPortPart_safe st s hv
  | setEncodedPath s => exact setEncodedPath_safe st s hv
  | setQueryRaw s => exact setQueryRaw_safe st s hv
  | setEncodedQuery s => exact setEncodedQuery_safe st s hv
  | setQueryPart s => exact setQueryPart_safe st s hv
  | setFragmentRaw s => exact setFragmentRaw_safe st s hv
  | setEncodedFragment s => exact setEncodedFragment_safe st s hv
  | setFragmentPart s => exact setFragmentPart_safe st s hv

/-! ## Port number (url.hpp port_number, parts.hpp port_number field)

Modelled from the spec: the .ipp computing port_number is absent; the
documented contract (url.hpp:394) is that a stored port string holding
a decimal value in 0..65535 yields that value and every other case
yields zero.  The model accumulates digits left to right and fails on
a non-digit or when the running value leaves the range. -/

/-- Left-to-right digit accumulation with range cutoff. -/
def portNumberAux : Str → Nat → Option Nat
  | [], v => some v
  | c :: rest, v =>
    if isDigitC c then
      if 10 * v + digitVal c ≤ 65535 then
        portNumberAux rest (10 * v + digitVal c)
      else none
    else none

/-- Numeric value of the port string (the stored port bytes without the
leading colon); zero when absent, non-numeric or out of range. -/
def portNumberOfStr (s : Str) : Nat :=
  (portNumberAux s 0).getD 0

/-- url::port(): the stored port bytes without their leading colon. -/
def port (st : UrlState) : Str :=
  st.port_part.drop 1

/-- url::port_number(). -/
def port_number (st : UrlState) : Nat :=
  portNumberOfStr (port st)

/-- The unbounded decimal value of a digit string. -/
def natValDigits (s : Str) : Nat :=
  s.foldl (fun v c => 10 * v + digitVal c) 0

theorem foldl_digits_ge (s : Str) : ∀ v : Nat,
    v ≤ s.foldl (fun v c => 10 * v + digitVal c) v := by
  induction s with
  | nil => intro v; exact Nat.le_refl v
  | cons c rest ih =>
    intro v
    have h1 : v ≤ 10 * v + digitVal c := by omega
    exact Nat.le_trans h1 (ih (10 * v + digitVal c))

theorem portNumberAux_nondigit {s : Str} (h : s.all isDigitC = false) :
    ∀ v, portNumberAux s v = none := by
  induction s with
  | nil => simp at h
  | cons c rest ih =>
    intro v
    rw [portNumberAux]
    by_cases hc : isDigitC c
    · rw [if_pos hc]
      simp only [List.all_cons, hc, Bool.true_and] at h
      by_cases hle : 10 * v + digitVal c ≤ 65535
      · rw [if_pos hle]
        exact ih h _
      · rw [if_neg hle]
    · rw [if_neg hc]

theorem portNumberAux_digits {s : Str} (h : s.all isDigitC = true) :
    ∀ v, v ≤ 65535 →
      portNumberAux s v =
        if s.foldl (fun v c => 10 * v + digitVal c) v ≤ 65535 then
          some (s.foldl (fun v c => 10 * v + digitVal c) v)
        else none := by
  induction s with
  | nil =>
    intro v hv
    simp [portNumberAux, hv]
  | cons c rest ih =>
    intro v hv
    simp only [List.all_cons, Bool.and_eq_true] at h
    rw [portNumberAux, if_pos h.1, List.foldl_cons]
    by_cases hle : 10 * v + digitVal c ≤ 65535
    · rw [if_pos hle]
      exact ih h.2 _ hle
    · rw [if_neg hle]
      have hge := foldl_digits_ge rest (10 * v + digitVal c)
      rw [if_neg (by omega)]

/-- Functional correctness of the port accumulator against the
documented contract: the value of an in-range decimal string, else 0. -/
theorem portNumberOfStr_spec (s : Str) :
    portNumberOfStr s =
      if s.all isDigitC = true ∧ natValDigits s ≤ 65535 then natValDigits s
      else 0 := by
  rw [portNumberOfStr, natValDigits]
  by_cases hd : s.all isDigitC = true
  · rw [portNumberAux_digits hd 0 (by omega)]
    by_cases hle : s.foldl (fun v c => 10 * v + digitVal c) 0 ≤ 65535
    · rw [if_pos hle, if_pos ⟨hd, hle⟩]
      rfl
    · rw [if_neg hle, if_neg (fun hc => hle hc.2)]
      rfl
  · rw [portNumberAux_nondigit (Bool.eq_false_iff.mpr hd) 0,
      if_neg (fun hc => hd hc.1)]
    rfl

/-! ## Host accessor dispatch (url.hpp host(), lines 336-354)

The decoded host accessor is implemented inline in url.hpp: when
host_type is not name the encoded bytes are returned without decoding,
otherwise pct_decode_unchecked is applied. -/

/-- Modelled from the spec: detail::pct_decode_unchecked replaces every
percent triplet by its byte and copies every other byte. -/
def pctDecodeUnchecked : Str → Str
  | [] => []
  | c :: rest =>
    if c = '%' then
      match rest with
      | a :: b :: rest2 => Char.ofNat (16 * hexVal a + hexVal b) :: pctDecodeUnchecked rest2
      | _ => []
    else c :: pctDecodeUnchecked rest

/-- Modelled from the spec: the host matcher dispatch of spec section
4.3 resolving host_type from the stored bytes: no authority gives none,
a bracketed literal gives ipv6 or ipvfuture, a dotted quad gives ipv4,
anything else is a reg-name. -/
def hostType (st : UrlState) : HostType :=
  if st.user_part.isEmpty then HostType.none
  else if st.host_part.head? = some '[' then
    (if (ipv6Full ((st.host_part.drop 1).dropLast)).isSome then HostType.ipv6
     else HostType.ipvfuture)
  else if (ipv4Full st.host_part).isSome then HostType.ipv4
  else HostType.name

/-- url::encoded_host(): the stored host bytes. -/
def encoded_host (st : UrlState) : Str :=
  st.host_part

/-- url::host() (url.hpp:336): no decoding unless host_type is name. -/
def host (st : UrlState) : Str :=
  if hostType st ≠ HostType.name then encoded_host st
  else pctDecodeUnchecked (encoded_host st)

/-! ## Query parameters (rfc/query_bnf.hpp, rfc/impl/query_bnf.ipp)

The query_param record of query_bnf.hpp stores the value as an
optional, distinguishing a parameter written without "=" from one with
an empty value.  The range parse itself lives in
detail/query_params_bnf, absent from the tree; it is modelled from the
grammar block of query_bnf.hpp. -/

/-- qpchar: unreserved / pct-encoded / "!" "$" APOSTROPHE "(" ")"
"*" "+" "," ";" ":" "@" "/" "?" (by code point), the plain characters. -/
def isQPChar (c : Char) : Bool :=
  isUnreserved c ||
    [33, 36, 39, 40, 41, 42, 43, 44, 59, 58, 64, 47, 63].contains c.toNat

/-- Characters of a parameter value: qpchar plus "=". -/
def isQPVChar (c : Char) : Bool :=
  isQPChar c || c = '='

/-- query_param of query_bnf.hpp: a key and an optional value. -/
structure QueryParam where
  key : Str
  value : Option Str
deriving DecidableEq, Repr

/-- Modelled from the spec: one query-param = key [ "=" value ]; a
parameter without "=" yields value none, "=" yields the (possibly
empty) value. -/
def parseParam (p : Str) : Option QueryParam :=
  let k := p.takeWhile (fun a => a ≠ '=')
  let r := p.dropWhile (fun a => a ≠ '=')
  if pctOK isQPChar k then
    if r.isEmpty then some ⟨k, none⟩
    else if pctOK isQPVChar (r.drop 1) then some ⟨k, some (r.drop 1)⟩
    else none
  else none

/-- Modelled from the spec: query-params = [ query-param ]
*( "&" [ query-param ] ). -/
def parseQueryParams (q : Str) : Option (List QueryParam) :=
  (splitOnChar '&' q).mapM parseParam

/-- The optional value records exactly whether the parameter was
written with an equals sign. -/
theorem parseParam_value_iff {p : Str} {kv : QueryParam}
    (h : parseParam p = some kv) : (kv.value = none ↔ '=' ∉ p) := by
  rw [parseParam] at h
  split at h
  · split at h
    · next he =>
      injection h with h
      subst h
      simp only [true_iff]
      intro hmem
      have hdrop : p.dropWhile (fun a => decide (a ≠ '=')) = [] :=
        List.isEmpty_iff.mp he
      have := List.takeWhile_append_dropWhile (fun a => decide (a ≠ '=')) p
      rw [hdrop, List.append_nil] at this
      rw [← this] at hmem
      have := List.mem_takeWhile_imp hmem
      simp at this
    · split at h
      · next he hq =>
        injection h with h
        subst h
        constructor
        · intro habs
          exact absurd habs (Option.some_ne_none _)
        · intro habs
          exfalso
          apply habs
          have hne : ¬ (p.dropWhile (fun a => decide (a ≠ '=')) = []) := by
            intro h0
            rw [List.isEmpty_iff] at he
            exact he h0
          obtain ⟨c0, t0, hct⟩ := List.exists_cons_of_ne_nil hne
          have hc0 : (decide (c0 ≠ '=')) = false :=
            head_dropWhile_false (by rw [hct]; rfl)
          simp only [decide_eq_false_iff_not, ne_eq, not_not] at hc0
          subst hc0
          have hsub : p.dropWhile (fun a => decide (a ≠ '=')) <:+ p :=
            List.dropWhile_suffix _
          rw [hct] at hsub
          exact hsub.mem (List.mem_cons_self _ _)
      · exact absurd h (by simp)
  · exact absurd h (by simp)

/-! ## Example states used by the claim witnesses -/

/-- The state of parse("http://user:pw@example.com:8080/a/b?x=1&y=2#f"). -/
def exFull : UrlState :=
  ⟨"http:".toList, "//user".toList, ":pw@".toList, "example.com".toList,
    ":8080".toList, "/a/b".toList, "?x=1&y=2".toList, "#f".toList⟩

/-- The state of parse("http://x"). -/
def exAuth : UrlState :=
  ⟨"http:".toList, "//".toList, [], "x".toList, [], [], [], []⟩

/-- An authority whose reg-name host carries a percent triplet. -/
def exEncodedName : UrlState :=
  ⟨[], "//".toList, [], "a%20b".toList, [], [], [], []⟩

/-- The state of parse("foo://[::1]"). -/
def exIpv6 : UrlState :=
  ⟨"foo:".toList, "//".toList, [], "[::1]".toList, [], [], [], []⟩

/-! ## The claims -/

/-- C1: for every url in a valid state, parsing the serialized URL
returned by encoded_url() succeeds and yields a url equal to the
original: parse(serialize(url)) = url. -/
theorem claim_C1_roundtrip :
    ∀ st : UrlState, validState st = true →
      parseUrl (serializeUrl st) = some st :=
  fun _ h => parse_serializeUrl h

/-- Witness for C1 at the state of a full URL with every component. -/
theorem claim_C1_roundtrip_witness :
    validState exFull = true ∧ parseUrl (serializeUrl exFull) = some exFull :=
  ⟨by decide, claim_C1_roundtrip exFull (by decide)⟩

/-- C2: a setter of the modelled family either commits with all
data-model invariants holding afterwards, or reports an error with the
container state exactly as before the call. -/
theorem claim_C2_setter_rollback :
    ∀ (st : UrlState) (c : SetterCall), validState st = true →
      ((applySetter st c).2.isSome = true → (applySetter st c).1 = st) ∧
        ((applySetter st c).2 = none → validState (applySetter st c).1 = true) :=
  fun st c hv => applySetter_safe st c hv

/-- Witness for C2 on a committing query setter. -/
theorem claim_C2_setter_rollback_witness :
    ((applySetter exAuth (SetterCall.setEncodedQuery "a=1".toList)).2.isSome = true →
      (applySetter exAuth (SetterCall.setEncodedQuery "a=1".toList)).1 = exAuth) ∧
      ((applySetter exAuth (SetterCall.setEncodedQuery "a=1".toList)).2 = none →
        validState (applySetter exAuth (SetterCall.setEncodedQuery "a=1".toList)).1 = true) :=
  claim_C2_setter_rollback exAuth (SetterCall.setEncodedQuery "a=1".toList) (by decide)

/-- C3: the claim requires decoded[i] = 0 after construction and after
clear(); the shipped parts::clear() has the decoded-zeroing loop
commented out, so stale decoded counts survive both clear() and the
default constructor (which only calls clear()), while host_type and the
offsets are reset. -/
theorem claim_C3_decoded_not_cleared :
    (CParts.construct staleParts).decoded 0 = 7 ∧ (7 : Nat) ≠ 0 ∧
      (staleParts.clear).decoded 0 = 7 ∧
      (staleParts.clear).host_type = HostType.none ∧
      (staleParts.clear).offset 0 = 0 :=
  ⟨rfl, by decide, rfl, rfl, rfl⟩

/-- C4: the offset array is non-decreasing, the length of component i
is offset[i+1] - offset[i], offset[end] is the serialized length, and
the serialized URL is the buffer bytes from offset[scheme] to
offset[end], the in-order concatenation of the component bytes. -/
theorem claim_C4_offsets :
    ∀ (st : UrlState) (i : Fin 8),
      partsOffset st i.val ≤ partsOffset st (i.val + 1) ∧
        partsLength st i.val = (compAt st i.val).length ∧
        partsOffset st 8 = (serializeUrl st).length ∧
        partsGetRange st 0 8 (serializeUrl st) = serializeUrl st ∧
        partsGet st i.val (serializeUrl st) = compAt st i.val := by
  intro st i
  have hsucc := partsOffset_succ st i.val i.isLt
  refine ⟨by omega, ?_, partsOffset_end st, partsGetRange_full st,
    partsGet_eq st i.val i.isLt⟩
  rw [partsLength, hsucc]
  omega

/-- C5: the IPv6 matcher admits at most one "::" (a second one is
rejected), compresses to exactly eight 16-bit groups, accepts an
embedded IPv4 address in the last two slots, and yields the 16-byte
big-endian address; in particular "::FFFF:1.2.3.4" is accepted with
low 64 bits 0x0000ffff01020304. -/
theorem claim_C5_ipv6 :
    ipv6Full "::0::".toList = none ∧
      ipv6Full ":0::".toList = none ∧
      ipv6Full "0:0:0:0:0:0:0::1.2.3.4".toList = none ∧
      ipv6Full "::FFFF:1.2.3.4".toList =
        some (List.replicate 10 0 ++ [255, 255, 1, 2, 3, 4]) ∧
      getU64 (List.replicate 10 0 ++ [255, 255, 1, 2, 3, 4]) 0 = 0 ∧
      getU64 (List.replicate 10 0 ++ [255, 255, 1, 2, 3, 4]) 8 =
        0x0000ffff01020304 ∧
      ipv6Full "1:2:3:4:5:6:1.2.3.4".toList =
        some [0, 1, 0, 2, 0, 3, 0, 4, 0, 5, 0, 6, 1, 2, 3, 4] ∧
      (∀ (l : Str) (bs : List Nat), ipv6Full l = some bs → bs.length = 16) := by
  refine ⟨by decide, by decide, by decide, by decide, by decide, by decide,
    by decide, ?_⟩
  intro l bs h
  exact ipv6Full_length h

/-- Witness for C5: the 16-byte yield at a concrete accepted input. -/
theorem claim_C5_ipv6_witness :
    ((List.replicate 14 0 ++ [0, 1] : List Nat)).length = 16 :=
  claim_C5_ipv6.2.2.2.2.2.2.2 "::1".toList (List.replicate 14 0 ++ [0, 1])
    (by decide)

/-- C6: each dec-octet is 1-3 digits with value 0-255 and no leading
zero on a multi-digit value; "01.2.3.4", "0.0.0.256" and "1.2.3.300"
are rejected, and on success the result is the 4-byte big-endian value
of the address. -/
theorem claim_C6_ipv4 :
    ipv4Full "01.2.3.4".toList = none ∧
      ipv4Full "0.0.0.256".toList = none ∧
      ipv4Full "1.2.3.300".toList = none ∧
      ipv4Full "1.2.3.4".toList = some [1, 2, 3, 4] ∧
      getU32 [1, 2, 3, 4] = 0x01020304 ∧
      (∀ (l : Str) (bs : List Nat), ipv4Full l = some bs →
        bs.length = 4 ∧ ∀ b ∈ bs, b ≤ 255) := by
  refine ⟨by decide, by decide, by decide, by decide, by decide, ?_⟩
  intro l bs h
  exact ipv4Full_bytes h

/-- Witness for C6: the 4-byte yield at a concrete accepted input. -/
theorem claim_C6_ipv4_witness :
    ([0, 0, 0, 0] : List Nat).length = 4 ∧ ∀ b ∈ ([0, 0, 0, 0] : List Nat), b ≤ 255 :=
  claim_C6_ipv4.2.2.2.2.2 "0.0.0.0".toList [0, 0, 0, 0] (by decide)

/-- C7: with an authority present set_encoded_path accepts only
path-abempty; set_encoded_path("not/absolute") on parse("http://x")
fails with the Invalid error kind and the url is unchanged. -/
theorem claim_C7_path_abempty :
    parseUrl "http://x".toList = some exAuth ∧
      setEncodedPath exAuth "not/absolute".toList = (exAuth, some Err.invalid) ∧
      (∀ (st : UrlState) (s : Str), (!st.user_part.isEmpty) = true →
        s.isEmpty = false → s.head? ≠ some '/' →
        setEncodedPath st s = (st, some Err.invalid)) := by
  refine ⟨by decide, by decide, ?_⟩
  intro st s h1 h2 h3
  rw [setEncodedPath, if_neg]
  intro hp
  rw [pathOK] at hp
  simp only [Bool.and_eq_true] at hp
  have hp2 := hp.2
  rw [if_pos h1] at hp2
  simp only [Bool.or_eq_true, decide_eq_true_eq] at hp2
  rcases hp2 with hp2 | hp2
  · rw [h2] at hp2
    exact Bool.false_ne_true hp2
  · exact h3 hp2

/-- Witness for C7: a rootless replacement is refused on a url with an
authority and the state is returned unchanged. -/
theorem claim_C7_path_abempty_witness :
    setEncodedPath exAuth ['q'] = (exAuth, some Err.invalid) :=
  claim_C7_path_abempty.2.2 exAuth ['q'] (by decide) (by decide) (by decide)

/-- C8: port_number() returns the numeric value of the stored port
string when it is a decimal number in 0..65535, and 0 in every other
case (absent, non-numeric, or out of range). -/
theorem claim_C8_port_number :
    ∀ st : UrlState,
      port_number st =
        if (port st).all isDigitC = true ∧ natValDigits (port st) ≤ 65535 then
          natValDigits (port st)
        else 0 :=
  fun st => portNumberOfStr_spec (port st)

/-- C9: when host_type is not name, the decoded host accessor returns
exactly the encoded host bytes with no percent-decoding; decoding
happens only for host_type name. -/
theorem claim_C9_host_no_decode :
    (∀ st : UrlState, hostType st ≠ HostType.name → host st = encoded_host st) ∧
      hostType exEncodedName = HostType.name ∧
      host exEncodedName = "a b".toList ∧
      encoded_host exEncodedName = "a%20b".toList := by
  refine ⟨?_, by decide, by decide, by decide⟩
  intro st h
  rw [host, if_pos h]

/-- Witness for C9 on a bracketed IPv6 host: no decoding is applied. -/
theorem claim_C9_host_no_decode_witness :
    host exIpv6 = encoded_host exIpv6 :=
  claim_C9_host_no_decode.1 exIpv6 (by decide)

/-- C10: every query parameter stores its value as an optional; a bare
key yields none, distinguished from an "=" with empty value, and the
view preserves the distinction for every parameter. -/
theorem claim_C10_query_param_optional :
    parseQueryParams "a".toList = some [⟨"a".toList, none⟩] ∧
      parseQueryParams "a=".toList = some [⟨"a".toList, some []⟩] ∧
      parseQueryParams "a=1&b&c=".toList =
        some [⟨['a'], some ['1']⟩, ⟨['b'], none⟩, ⟨['c'], some []⟩] ∧
      (∀ (p : Str) (kv : QueryParam), parseParam p = some kv →
        (kv.value = none ↔ '=' ∉ p)) := by
  refine ⟨by decide, by decide, by decide, ?_⟩
  intro p kv h
  exact parseParam_value_iff h

/-- Witness for C10: a bare key parses with value none. -/
theorem claim_C10_query_param_optional_witness :
    (QueryParam.mk ['b'] none).value = none ↔ '=' ∉ (['b'] : Str) :=
  claim_C10_query_param_optional.2.2.2 ['b'] (QueryParam.mk ['b'] none) (by decide)

end BoostUrl
